import Mathlib

/-! # EliteWealths/investment: the real-time relay of `server.js`

A shallow embedding of the socket handlers and HTTP endpoints of `server.js`.

* The three module-level `Map`s (`activeInvestors`, `uploadedFiles`,
  `chatMessages`) are insertion-ordered association lists (`JsMap`): `set` on a
  key that is present replaces the value in place, `set` on a fresh key appends.
* The per-connection property `socket.investorId` is a fourth map keyed by
  `socket.id`.
* `Date.now()` / `new Date()` are one clock reading (milliseconds, a `Nat`)
  carried by the event that triggers the handler; the `toLocaleString()`
  rendering in the `new-investor` payload is left as the reading itself.
* The handler of `POST /upload` (`upload`) is modelled from the point where
  the upload middleware has run: `req.file` is present or absent. The route as
  a whole (`postUpload`) puts the configured middleware (`uploadSingle`: the
  `fileFilter` and the size limit) in front of it.
* Which open connections a targeted emit reaches is the socket library's
  business; `targetedDelivery` takes the open connections as a parameter.
* `data.investorId`, `req.body.investorId` are absent (`none`) or a string; the
  empty string is falsy, as in JavaScript.
* `step` returns the new state together with the list of events the handler
  emits, in the order they are emitted.
-/

namespace Server

/-! ## JavaScript `Map` with string keys -/

/-- Insertion-ordered map with string keys. -/
abbrev JsMap (α : Type) := List (String × α)

namespace JsMap

variable {α : Type}

/-- `Map.prototype.get`: the value stored under `k`, if any. -/
def get? : JsMap α → String → Option α
  | [], _ => none
  | (k', v) :: rest, k => if k' = k then some v else get? rest k

/-- `Map.prototype.has`. -/
def has (m : JsMap α) (k : String) : Bool := (get? m k).isSome

/-- `Map.prototype.set`: replace in place when the key is present, else append. -/
def set : JsMap α → String → α → JsMap α
  | [], k, v => [(k, v)]
  | (k', v') :: rest, k, v => if k' = k then (k, v) :: rest else (k', v') :: set rest k v

/-- In-place update of the value object stored under `k` (no effect when absent). -/
def modify : JsMap α → String → (α → α) → JsMap α
  | [], _, _ => []
  | (k', v') :: rest, k, f => if k' = k then (k', f v') :: rest else (k', v') :: modify rest k f

/-- `Array.from(map.values())`. -/
def values (m : JsMap α) : List α := m.map Prod.snd

/-- The keys, in insertion order. -/
def keys (m : JsMap α) : List String := m.map Prod.fst

/-- `Map.prototype.size`. -/
def size (m : JsMap α) : Nat := m.length

end JsMap

/-! ## Data model -/

/-- The `status` field of a session record: `'active'` or `'inactive'`. -/
inductive Status
  | active
  | inactive
  deriving DecidableEq, Repr

/-- A record of `activeInvestors` (lines 69-76). -/
structure Investor where
  id : String
  socketId : String
  joinTime : Nat
  ip : String
  userAgent : Option String
  status : Status
  deriving DecidableEq, Repr

/-- The `type` field of a chat message: `'investor'` or `'admin'`. -/
inductive MsgType
  | investor
  | admin
  deriving DecidableEq, Repr

/-- The `messageData` object (lines 99-105 and 119-125). -/
structure Message where
  id : String
  type : MsgType
  content : String
  timestamp : Nat
  investorId : String
  deriving DecidableEq, Repr

/-- The `fileInfo` object (lines 160-168). -/
structure FileInfo where
  id : String
  filename : String
  originalName : String
  size : Nat
  uploadTime : Nat
  ip : String
  investorId : String
  deriving DecidableEq, Repr

/-- A connection: `socket.id` and the handshake data read by the join handler. -/
structure Socket where
  id : String
  address : String
  userAgent : Option String
  deriving DecidableEq, Repr

/-- The `req.file` object that the upload middleware leaves on the request. -/
structure ReqFile where
  filename : String
  originalname : String
  size : Nat
  deriving DecidableEq, Repr

/-- The request seen by the `POST /upload` handler, after the middleware ran. -/
structure UploadReq where
  file : Option ReqFile
  ip : String
  investorId : Option String
  deriving DecidableEq, Repr

/-- The process state: the three module-level maps and `socket.investorId`. -/
structure State where
  activeInvestors : JsMap Investor
  uploadedFiles : JsMap FileInfo
  chatMessages : JsMap (List Message)
  socketInvestor : JsMap String
  deriving DecidableEq, Repr

/-- Inbound events: the five socket events and the upload request. -/
inductive Event
  | investorJoin (s : Socket) (investorId : Option String) (now : Nat)
  | investorMessage (s : Socket) (message : String) (now : Nat)
  | adminMessage (s : Socket) (investorId : Option String) (message : String) (now : Nat)
  | fileUploadStart (s : Socket) (data : String)
  | disconnect (s : Socket)
  | upload (req : UploadReq) (now : Nat)
  deriving DecidableEq, Repr

/-- Outbound events. `adminMessageTo` is the targeted `io.to(..).emit`, every
other constructor is an `io.emit` to all connections. -/
inductive Emit
  | newInvestor (investorId : String) (joinTime : Nat) (ip : String)
  | newMessage (m : Message)
  | adminMessageTo (socketId : Option String) (m : Message)
  | fileUploadStart (data : String)
  | investorLeft (investorId : String)
  | fileUploaded (f : FileInfo)
  deriving DecidableEq, Repr

/-! ## Handlers -/

/-- JavaScript truthiness of an optional string: present and non-empty. -/
def truthy : Option String → Option String
  | some s => if s = "" then none else some s
  | none => none

/-- Value of `data.investorId || 'inv_' + Date.now()` (line 67). -/
def resolveId (investorId : Option String) (now : Nat) : String :=
  match truthy investorId with
  | some i => i
  | none => "inv_" ++ toString now

/-- Handler of `investor-join` (lines 66-93). -/
def investorJoin (σ : State) (s : Socket) (investorId : Option String) (now : Nat) :
    State × List Emit :=
  let i := resolveId investorId now
  let investors := σ.activeInvestors.set i
    { id := i, socketId := s.id, joinTime := now, ip := s.address,
      userAgent := s.userAgent, status := Status.active }
  let chats := if σ.chatMessages.has i then σ.chatMessages else σ.chatMessages.set i []
  ({ σ with activeInvestors := investors, chatMessages := chats,
            socketInvestor := σ.socketInvestor.set s.id i },
   [Emit.newInvestor i now s.address])

/-- Handler of `investor-message` (lines 96-113). -/
def investorMessage (σ : State) (s : Socket) (message : String) (now : Nat) :
    State × List Emit :=
  match truthy (σ.socketInvestor.get? s.id) with
  | some i =>
    if σ.chatMessages.has i then
      let messageData : Message :=
        { id := "msg_" ++ toString now, type := MsgType.investor, content := message,
          timestamp := now, investorId := i }
      ({ σ with chatMessages := σ.chatMessages.modify i (fun l => l ++ [messageData]) },
       [Emit.newMessage messageData])
    else (σ, [])
  | none => (σ, [])

/-- Handler of `admin-message` (lines 116-135). -/
def adminMessage (σ : State) (investorId : Option String) (message : String) (now : Nat) :
    State × List Emit :=
  match truthy investorId with
  | some i =>
    if σ.chatMessages.has i then
      let messageData : Message :=
        { id := "msg_" ++ toString now, type := MsgType.admin, content := message,
          timestamp := now, investorId := i }
      ({ σ with chatMessages := σ.chatMessages.modify i (fun l => l ++ [messageData]) },
       [Emit.adminMessageTo ((σ.activeInvestors.get? i).map Investor.socketId) messageData,
        Emit.newMessage messageData])
    else (σ, [])
  | none => (σ, [])

/-- Handler of `file-upload-start` (lines 138-140). -/
def fileUploadStart (σ : State) (data : String) : State × List Emit :=
  (σ, [Emit.fileUploadStart data])

/-- Handler of `disconnect` (lines 142-151). -/
def disconnect (σ : State) (s : Socket) : State × List Emit :=
  match truthy (σ.socketInvestor.get? s.id) with
  | some i =>
    ({ σ with activeInvestors :=
                σ.activeInvestors.modify i (fun inv => { inv with status := Status.inactive }) },
     [Emit.investorLeft i])
  | none => (σ, [])

/-- Handler of `POST /upload` (lines 155-183), state and broadcast part. -/
def upload (σ : State) (req : UploadReq) (now : Nat) : State × List Emit :=
  match req.file with
  | none => (σ, [])
  | some f =>
    let fileInfo : FileInfo :=
      { id := "file_" ++ toString now, filename := f.filename, originalName := f.originalname,
        size := f.size, uploadTime := now, ip := req.ip,
        investorId := (truthy req.investorId).getD "unknown" }
    ({ σ with uploadedFiles := σ.uploadedFiles.set fileInfo.id fileInfo },
     [Emit.fileUploaded fileInfo])

/-- One event processed by the server. -/
def step (σ : State) : Event → State × List Emit
  | Event.investorJoin s i now => investorJoin σ s i now
  | Event.investorMessage s m now => investorMessage σ s m now
  | Event.adminMessage _ i m now => adminMessage σ i m now
  | Event.fileUploadStart _ d => fileUploadStart σ d
  | Event.disconnect s => disconnect σ s
  | Event.upload req now => upload σ req now

/-- A sequence of events processed one after the other; the emitted events are
collected in order. -/
def run (σ : State) : List Event → State × List Emit
  | [] => (σ, [])
  | e :: es =>
    let r := step σ e
    let r' := run r.1 es
    (r'.1, r.2 ++ r'.2)

/-- The state at start-up: all maps empty, no connection. -/
def init : State :=
  { activeInvestors := [], uploadedFiles := [], chatMessages := [], socketInvestor := [] }

/-- States the server can be in: the start-up state and what events lead to. -/
inductive Reachable : State → Prop
  | init : Reachable init
  | step (σ : State) (e : Event) : Reachable σ → Reachable (step σ e).1

/-! ## Read endpoints -/

/-- `GET /api/uploads` (lines 186-189). -/
def apiUploads (σ : State) : List FileInfo := σ.uploadedFiles.values

/-- `GET /api/investors` (lines 191-194). -/
def apiInvestors (σ : State) : List Investor := σ.activeInvestors.values

/-- `GET /api/chat/:investorId` (lines 196-199). -/
def apiChat (σ : State) (investorId : String) : List Message :=
  (σ.chatMessages.get? investorId).getD []

/-- The body of the `GET /api/stats` response. -/
structure Stats where
  totalInvestors : Nat
  totalFiles : Nat
  onlineInvestors : Nat
  deriving DecidableEq, Repr

/-- `GET /api/stats` (lines 201-207). -/
def apiStats (σ : State) : Stats :=
  { totalInvestors := σ.activeInvestors.size,
    totalFiles := σ.uploadedFiles.size,
    onlineInvestors :=
      (σ.activeInvestors.values.filter (fun inv => inv.status = Status.active)).length }

/-! ## Invariant and claim-level definitions -/

/-- What holds of every reachable state: the keys of each map are distinct,
every session record is stored under its own id, and an `investorId` bound to a
connection is non-empty and has a conversation and a session record. -/
structure Inv (σ : State) : Prop where
  investorsNodup : σ.activeInvestors.keys.Nodup
  chatsNodup : σ.chatMessages.keys.Nodup
  filesNodup : σ.uploadedFiles.keys.Nodup
  investorsId : σ.activeInvestors.values.map Investor.id = σ.activeInvestors.keys
  bound : ∀ sid i, σ.socketInvestor.get? sid = some i →
    i ≠ "" ∧ σ.chatMessages.has i = true ∧ σ.activeInvestors.has i = true

/-- A sequence of `investor-join` events that all carry the id `i`, each from
its own connection and at its own clock reading. -/
def joinEvents (i : String) (js : List (Socket × Nat)) : List Event :=
  js.map (fun p => Event.investorJoin p.1 (some i) p.2)

/-- A connection used in the worked examples. -/
def sockA : Socket := { id := "A", address := "10.0.0.1", userAgent := some "ua" }

/-- A second connection used in the worked examples. -/
def sockB : Socket := { id := "B", address := "10.0.0.2", userAgent := none }

/-- The messages broadcast as `new-message` that belong to conversation `i`, in the order
they were emitted. -/
def newMessagesFor (i : String) (out : List Emit) : List Message :=
  out.filterMap (fun e =>
    match e with
    | Emit.newMessage m => if m.investorId = i then some m else none
    | _ => none)

/-- The investor a message event is addressed to: the id bound to the sending connection for
`investor-message`, the `investorId` of the payload for `admin-message`. Other events are not
message events. -/
def Event.messageTarget (σ : State) : Event → Option String
  | Event.investorMessage s _ _ => σ.socketInvestor.get? s.id
  | Event.adminMessage _ d _ _ => d
  | _ => none

/-- Whether the event is an `investor-join` that resolves to the id `i`. -/
def Event.joins (i : String) : Event → Bool
  | Event.investorJoin _ d now => decide (resolveId d now = i)
  | _ => false

/-- No `investor-join` event of the sequence resolves to the id `i`: the investor `i` never
joined. -/
def neverJoined (i : String) (es : List Event) : Bool :=
  es.all (fun e => !e.joins i)

/-- The `messageData` object built by the `investor-message` handler (lines 99-105). -/
def investorMessageData (i : String) (content : String) (now : Nat) : Message :=
  { id := "msg_" ++ toString now, type := MsgType.investor, content := content,
    timestamp := now, investorId := i }

/-- The clock reading of the event when it is an `investor-join` that resolves to the id
`i`. -/
def Event.joinTimeFor (i : String) : Event → Option Nat
  | Event.investorJoin _ d now => if resolveId d now = i then some now else none
  | _ => none

/-- The clock reading of the last `investor-join` of the sequence that resolves to `i`. -/
def lastJoinTime (i : String) : List Event → Option Nat
  | [] => none
  | e :: es =>
    match lastJoinTime i es with
    | some t => some t
    | none => e.joinTimeFor i

/-- The `joinTime` of the session record stored for `i`, if there is one. -/
def joinTimeOf (σ : State) (i : String) : Option Nat :=
  (σ.activeInvestors.get? i).map Investor.joinTime

/-- An accepted upload request used in the worked examples: a file is present. -/
def uploadReq (filename originalname : String) (size : Nat) (investorId : Option String) :
    UploadReq :=
  { file := some { filename := filename, originalname := originalname, size := size },
    ip := "10.0.0.9", investorId := investorId }

/-- The file part of a `POST /upload` request (field `paymentProof`) as it reaches the upload
middleware. `storedName` is the name that `storage.filename` (lines 36-39) gives the file. -/
structure FilePart where
  mimetype : String
  originalname : String
  size : Nat
  storedName : String
  deriving DecidableEq, Repr

/-- A `POST /upload` request before the upload middleware has run. -/
structure RawUpload where
  file : Option FilePart
  ip : String
  investorId : Option String
  deriving DecidableEq, Repr

/-- The `fileFilter` of the upload middleware (lines 44-50):
`file.mimetype.startsWith('image/')`. -/
def fileFilter (mimetype : String) : Bool := "image/".data.isPrefixOf mimetype.data

/-- The configured `limits.fileSize` (line 52), in bytes. -/
def fileSizeLimit : Nat := 10 * 1024 * 1024

/-- Modelled from the spec: the enforcement of `limits.fileSize` is done inside the upload
library, which is not under `src/`; only the configured limit is. The spec says "validate
size ≤ 10 MiB, else fail": a file passes when its size is at most the limit. -/
def withinFileSizeLimit (size : Nat) : Bool := decide (size ≤ fileSizeLimit)

/-- The middleware `upload.single('paymentProof')` (lines 42-54, 155): it fails with an error,
in which case the handler is not run, or hands the request with `req.file` to the handler.
The filter runs first, then the size limit applies to the bytes. -/
def uploadSingle (r : RawUpload) : Except String UploadReq :=
  match r.file with
  | none => Except.ok { file := none, ip := r.ip, investorId := r.investorId }
  | some f =>
    if fileFilter f.mimetype then
      if withinFileSizeLimit f.size then
        Except.ok { file := some { filename := f.storedName, originalname := f.originalname,
                                   size := f.size },
                    ip := r.ip, investorId := r.investorId }
      else Except.error "File too large"
    else Except.error "Only image files are allowed!"

/-- The route `POST /upload` (line 155): the middleware, then the handler. -/
def postUpload (σ : State) (r : RawUpload) (now : Nat) : State × List Emit :=
  match uploadSingle r with
  | Except.error _ => (σ, [])
  | Except.ok req => upload σ req now

/-- The `fileInfo` object the handler builds for an accepted file part (lines 160-168). -/
def fileInfoOf (f : FilePart) (ip : String) (investorId : Option String) (now : Nat) :
    FileInfo :=
  { id := "file_" ++ toString now, filename := f.storedName, originalName := f.originalname,
    size := f.size, uploadTime := now, ip := ip,
    investorId := (truthy investorId).getD "unknown" }

/-- A file part used in the worked examples. -/
def partOf (mimetype : String) (size : Nat) : FilePart :=
  { mimetype := mimetype, originalname := "proof", size := size, storedName := "1-2.bin" }

/-- The `messageData` object built by the `admin-message` handler (lines 119-125). -/
def adminMessageData (i : String) (content : String) (now : Nat) : Message :=
  { id := "msg_" ++ toString now, type := MsgType.admin, content := content,
    timestamp := now, investorId := i }

/-- Modelled from the spec: the delivery of `io.to(id).emit(..)` is done by the socket
library, which is not under `src/`. The spec says the targeted event goes "to exactly the
connection currently bound" and is "not delivered" when none is connected: among the
connections that are open (`live`), a targeted event reaches those whose id is its target;
a target `undefined` reaches none. Broadcasts are not counted here. -/
def targetedDelivery (live : List String) : List Emit → List String
  | [] => []
  | Emit.adminMessageTo (some sid) _ :: rest =>
    live.filter (fun l => l = sid) ++ targetedDelivery live rest
  | _ :: rest => targetedDelivery live rest

/-- Whether the event is an `investor-join` sent on the connection with id `sid`. -/
def Event.joinsOn (sid : String) : Event → Bool
  | Event.investorJoin s _ _ => decide (s.id = sid)
  | _ => false

/-- No `investor-join` of the sequence was sent on the connection with id `sid`: the
connection was never identified. -/
def neverIdentified (sid : String) (es : List Event) : Bool :=
  es.all (fun e => !e.joinsOn sid)

/-! ## Lemmas on `JsMap` -/

namespace JsMap
variable {α : Type}

theorem get?_set_self (m : JsMap α) (k : String) (v : α) : (m.set k v).get? k = some v := by
  induction m with
  | nil => simp [set, get?]
  | cons p rest ih =>
    obtain ⟨k', v'⟩ := p
    by_cases h : k' = k <;> simp [set, get?, h, ih]

theorem get?_set_ne (m : JsMap α) {k k' : String} (v : α) (h : k ≠ k') :
    (m.set k v).get? k' = m.get? k' := by
  induction m with
  | nil => simp [set, get?, h]
  | cons p rest ih =>
    obtain ⟨k0, v0⟩ := p
    by_cases h0 : k0 = k
    · subst h0; simp [set, get?, h]
    · by_cases h1 : k0 = k'
      · subst h1; simp [set, get?, h0]
      · simp [set, get?, h0, h1, ih]

theorem get?_modify_self (m : JsMap α) (k : String) (f : α → α) :
    (m.modify k f).get? k = (m.get? k).map f := by
  induction m with
  | nil => simp [modify, get?]
  | cons p rest ih =>
    obtain ⟨k', v'⟩ := p
    by_cases h : k' = k <;> simp [modify, get?, h, ih]

theorem get?_modify_ne (m : JsMap α) {k k' : String} (f : α → α) (h : k ≠ k') :
    (m.modify k f).get? k' = m.get? k' := by
  induction m with
  | nil => simp [modify, get?]
  | cons p rest ih =>
    obtain ⟨k0, v0⟩ := p
    by_cases h0 : k0 = k
    · subst h0; simp [modify, get?, h]
    · by_cases h1 : k0 = k'
      · subst h1; simp [modify, get?, h0]
      · simp [modify, get?, h0, h1, ih]

theorem keys_modify (m : JsMap α) (k : String) (f : α → α) : (m.modify k f).keys = m.keys := by
  induction m with
  | nil => simp [modify, keys]
  | cons p rest ih =>
    obtain ⟨k', v'⟩ := p
    simp only [keys] at ih
    by_cases h : k' = k <;> simp [modify, keys, h, ih]

theorem has_iff_mem_keys (m : JsMap α) (k : String) : m.has k = true ↔ k ∈ m.keys := by
  induction m with
  | nil => simp [has, get?, keys]
  | cons p rest ih =>
    obtain ⟨k', v'⟩ := p
    simp only [has, keys] at ih
    by_cases h : k' = k
    · simp [has, get?, keys, h]
    · have h' : ¬ k = k' := fun e => h e.symm
      simp [has, get?, keys, h, h', ih]

theorem keys_set (m : JsMap α) (k : String) (v : α) :
    (m.set k v).keys = if k ∈ m.keys then m.keys else m.keys ++ [k] := by
  induction m with
  | nil => simp [set, keys]
  | cons p rest ih =>
    obtain ⟨k', v'⟩ := p
    simp only [keys] at ih
    by_cases h : k' = k
    · simp [set, keys, h]
    · have h' : ¬ k = k' := fun e => h e.symm
      by_cases hm : k ∈ List.map Prod.fst rest <;> simp [set, keys, h, h', ih, hm]

theorem nodup_keys_set (m : JsMap α) (k : String) (v : α) (h : m.keys.Nodup) :
    (m.set k v).keys.Nodup := by
  rw [keys_set]
  split
  · exact h
  · rename_i hk
    exact List.Nodup.append h (List.nodup_singleton k) (by simpa using hk)

theorem mem_keys_set (m : JsMap α) (k : String) (v : α) : k ∈ (m.set k v).keys := by
  rw [keys_set]; split <;> simp_all

theorem size_eq_length_keys (m : JsMap α) : m.size = m.keys.length := by
  simp [size, keys]

end JsMap

/-! ## The invariant is preserved -/

theorem truthy_eq_some {o : Option String} {i : String} (h : truthy o = some i) :
    o = some i ∧ i ≠ "" := by
  cases o with
  | none => simp [truthy] at h
  | some s =>
    by_cases hs : s = ""
    · simp [truthy, hs] at h
    · simp [truthy, hs] at h
      subst h
      exact ⟨rfl, hs⟩

theorem truthy_some {i : String} (h : i ≠ "") : truthy (some i) = some i := by
  simp [truthy, h]

theorem resolveId_some {i : String} (h : i ≠ "") (now : Nat) : resolveId (some i) now = i := by
  simp [resolveId, truthy_some h]

theorem resolveId_ne_empty (o : Option String) (now : Nat) : resolveId o now ≠ "" := by
  unfold resolveId
  cases h : truthy o with
  | some i => exact (truthy_eq_some h).2
  | none =>
    intro he
    have := congrArg String.length he
    simp only [String.length_append] at this
    have h4 : "inv_".length = 4 := by decide
    have h0 : "".length = 0 := by decide
    omega

namespace JsMap
variable {α : Type}
theorem values_map_set (m : JsMap α) (g : α → String) (k : String) (v : α)
    (hm : m.values.map g = m.keys) (hv : g v = k) : (m.set k v).values.map g = (m.set k v).keys := by
  induction m with
  | nil => simp [set, values, keys, hv]
  | cons p rest ih =>
    obtain ⟨k', v'⟩ := p
    simp only [values, keys, List.map_cons, List.cons.injEq] at hm ih ⊢
    by_cases h : k' = k
    · simp [set, h, hv, hm.2]
    · simp [set, h, hm.1, ih hm.2]

theorem values_map_modify (m : JsMap α) (g : α → String) (k : String) (f : α → α)
    (hf : ∀ a, g (f a) = g a) : (m.modify k f).values.map g = m.values.map g := by
  induction m with
  | nil => simp [modify, values]
  | cons p rest ih =>
    obtain ⟨k', v'⟩ := p
    simp only [values] at ih ⊢
    by_cases h : k' = k <;> simp [modify, h, hf, ih]
end JsMap

theorem inv_init : Inv init := by
  constructor <;> simp [init, JsMap.keys, JsMap.values, JsMap.get?]

namespace JsMap
variable {α : Type}

theorem has_set_self (m : JsMap α) (k : String) (v : α) : (m.set k v).has k = true := by
  simp [has, get?_set_self]

theorem has_set_of_has (m : JsMap α) (k : String) (v : α) {k' : String}
    (h : m.has k' = true) : (m.set k v).has k' = true := by
  by_cases hk : k = k'
  · subst hk; exact has_set_self m k v
  · simpa [has, get?_set_ne m v hk] using h

theorem has_modify (m : JsMap α) (k : String) (f : α → α) (k' : String) :
    (m.modify k f).has k' = m.has k' := by
  by_cases hk : k = k'
  · subst hk; simp [has, get?_modify_self]
  · simp [has, get?_modify_ne m f hk]

end JsMap

theorem inv_investorJoin {σ : State} (h : Inv σ) (s : Socket) (d : Option String) (now : Nat) :
    Inv (investorJoin σ s d now).1 := by
  obtain ⟨h1, h2, h3, h4, h5⟩ := h
  refine ⟨?_, ?_, h3, ?_, ?_⟩
  · exact JsMap.nodup_keys_set _ _ _ h1
  · simp only [investorJoin]
    split
    · exact h2
    · exact JsMap.nodup_keys_set _ _ _ h2
  · exact JsMap.values_map_set _ _ _ _ h4 rfl
  · intro sid i hb
    simp only [investorJoin] at hb ⊢
    have hchat : ∀ j, σ.chatMessages.has j = true →
        (if σ.chatMessages.has (resolveId d now) = true then σ.chatMessages
          else σ.chatMessages.set (resolveId d now) []).has j = true := by
      intro j hj
      split
      · exact hj
      · exact JsMap.has_set_of_has _ _ _ hj
    by_cases hs : s.id = sid
    · subst hs
      rw [JsMap.get?_set_self] at hb
      cases hb
      refine ⟨resolveId_ne_empty d now, ?_, JsMap.has_set_self _ _ _⟩
      split
      · assumption
      · exact JsMap.has_set_self _ _ _
    · rw [JsMap.get?_set_ne _ _ hs] at hb
      obtain ⟨a, b, c⟩ := h5 sid i hb
      exact ⟨a, hchat i b, JsMap.has_set_of_has _ _ _ c⟩

theorem inv_investorMessage {σ : State} (h : Inv σ) (s : Socket) (m : String) (now : Nat) :
    Inv (investorMessage σ s m now).1 := by
  unfold investorMessage
  split
  · split
    · obtain ⟨h1, h2, h3, h4, h5⟩ := h
      refine ⟨h1, ?_, h3, h4, ?_⟩
      · simpa [JsMap.keys_modify] using h2
      · intro sid i hb
        obtain ⟨a, b, c⟩ := h5 sid i hb
        exact ⟨a, by simpa [JsMap.has_modify] using b, c⟩
    · exact h
  · exact h

theorem inv_adminMessage {σ : State} (h : Inv σ) (d : Option String) (m : String) (now : Nat) :
    Inv (adminMessage σ d m now).1 := by
  unfold adminMessage
  split
  · split
    · obtain ⟨h1, h2, h3, h4, h5⟩ := h
      refine ⟨h1, ?_, h3, h4, ?_⟩
      · simpa [JsMap.keys_modify] using h2
      · intro sid i hb
        obtain ⟨a, b, c⟩ := h5 sid i hb
        exact ⟨a, by simpa [JsMap.has_modify] using b, c⟩
    · exact h
  · exact h

theorem inv_disconnect {σ : State} (h : Inv σ) (s : Socket) : Inv (disconnect σ s).1 := by
  unfold disconnect
  split
  · obtain ⟨h1, h2, h3, h4, h5⟩ := h
    refine ⟨?_, h2, h3, ?_, ?_⟩
    · simpa [JsMap.keys_modify] using h1
    · simp only [JsMap.keys_modify]
      exact (JsMap.values_map_modify _ Investor.id _
        (fun inv => { inv with status := Status.inactive }) (fun a => rfl)).trans h4
    · intro sid i hb
      obtain ⟨a, b, c⟩ := h5 sid i hb
      exact ⟨a, b, by simpa [JsMap.has_modify] using c⟩
  · exact h

theorem inv_upload {σ : State} (h : Inv σ) (req : UploadReq) (now : Nat) :
    Inv (upload σ req now).1 := by
  unfold upload
  split
  · exact h
  · obtain ⟨h1, h2, h3, h4, h5⟩ := h
    exact ⟨h1, h2, JsMap.nodup_keys_set _ _ _ h3, h4, h5⟩

theorem inv_step {σ : State} (h : Inv σ) (e : Event) : Inv (step σ e).1 := by
  cases e with
  | investorJoin s d now => exact inv_investorJoin h s d now
  | investorMessage s m now => exact inv_investorMessage h s m now
  | adminMessage s d m now => exact inv_adminMessage h d m now
  | fileUploadStart s d => exact h
  | disconnect s => exact inv_disconnect h s
  | upload req now => exact inv_upload h req now

theorem inv_of_reachable {σ : State} (h : Reachable σ) : Inv σ := by
  induction h with
  | init => exact inv_init
  | step σ e _ ih => exact inv_step ih e

theorem reachable_run {σ : State} (h : Reachable σ) (es : List Event) :
    Reachable (run σ es).1 := by
  induction es generalizing σ with
  | nil => exact h
  | cons e es ih => exact ih (Reachable.step σ e h)

/-! ## C1: idempotent join -/

theorem keys_investorJoin_some (σ : State) (s : Socket) {i : String} (hi : i ≠ "") (now : Nat) :
    (investorJoin σ s (some i) now).1.activeInvestors.keys =
      if i ∈ σ.activeInvestors.keys then σ.activeInvestors.keys
      else σ.activeInvestors.keys ++ [i] := by
  simp only [investorJoin, resolveId_some hi]
  exact JsMap.keys_set _ _ _

theorem keys_run_joinEvents (σ : State) {i : String} (hi : i ≠ "") (js : List (Socket × Nat)) :
    (run σ (joinEvents i js)).1.activeInvestors.keys =
      if js = [] ∨ i ∈ σ.activeInvestors.keys then σ.activeInvestors.keys
      else σ.activeInvestors.keys ++ [i] := by
  induction js generalizing σ with
  | nil => simp [joinEvents, run]
  | cons p js ih =>
    have h1 := keys_investorJoin_some σ p.1 hi p.2
    have h2 := ih (investorJoin σ p.1 (some i) p.2).1
    simp only [joinEvents, List.map_cons, run, step] at h2 ⊢
    rw [h2, h1]
    by_cases hm : i ∈ σ.activeInvestors.keys
    · simp [hm]
    · simp [hm]

/-- C1 (idempotent join). From every reachable state, after any non-empty sequence of
`investor-join` events that all carry the same non-empty id `i` (from any connections, at any
clock readings), the session registry holds exactly one record under the key `i`, the listing
of `GET /api/investors` holds exactly one record whose `id` is `i`, and the registry has grown
by at most one record. -/
theorem join_idempotent (σ : State) (hσ : Reachable σ) (i : String) (hi : i ≠ "")
    (js : List (Socket × Nat)) (hjs : js ≠ []) :
    (run σ (joinEvents i js)).1.activeInvestors.keys.count i = 1 ∧
    (apiInvestors (run σ (joinEvents i js)).1).countP (fun r => r.id = i) = 1 ∧
    σ.activeInvestors.size ≤ (run σ (joinEvents i js)).1.activeInvestors.size ∧
    (run σ (joinEvents i js)).1.activeInvestors.size ≤ σ.activeInvestors.size + 1 := by
  have hinv := inv_of_reachable hσ
  have hinv' := inv_of_reachable (reachable_run hσ (joinEvents i js))
  have hk := keys_run_joinEvents σ hi js
  have hmem : i ∈ (run σ (joinEvents i js)).1.activeInvestors.keys := by
    rw [hk]; split <;> simp_all
  have hcount : (run σ (joinEvents i js)).1.activeInvestors.keys.count i = 1 :=
    List.count_eq_one_of_mem hinv'.investorsNodup hmem
  refine ⟨hcount, ?_, ?_, ?_⟩
  · have : (apiInvestors (run σ (joinEvents i js)).1).countP (fun r => r.id = i) =
        ((apiInvestors (run σ (joinEvents i js)).1).map Investor.id).count i := by
      rw [List.count, List.countP_map]
      congr 1
    rw [this]
    simp only [apiInvestors]
    rw [hinv'.investorsId]
    exact hcount
  · rw [JsMap.size_eq_length_keys, JsMap.size_eq_length_keys, hk]
    split <;> simp
  · rw [JsMap.size_eq_length_keys, JsMap.size_eq_length_keys, hk]
    split <;> simp

/-- Witness of `join_idempotent`: two joins with the id `"x"` from two connections, from the
start-up state. -/
theorem join_idempotent_witness :
    (run init (joinEvents "x" [(sockA, 1), (sockB, 2)])).1.activeInvestors.keys.count "x" = 1 ∧
    (apiInvestors (run init (joinEvents "x" [(sockA, 1), (sockB, 2)])).1).countP
      (fun r => r.id = "x") = 1 ∧
    init.activeInvestors.size ≤
      (run init (joinEvents "x" [(sockA, 1), (sockB, 2)])).1.activeInvestors.size ∧
    (run init (joinEvents "x" [(sockA, 1), (sockB, 2)])).1.activeInvestors.size ≤
      init.activeInvestors.size + 1 :=
  join_idempotent init Reachable.init "x" (by decide) [(sockA, 1), (sockB, 2)] (by decide)

/-! ## C2: message ordering -/

theorem apiChat_modify_append (σ : State) (i j : String) (m : Message)
    (h : σ.chatMessages.has i = true) :
    apiChat { σ with chatMessages := σ.chatMessages.modify i (fun l => l ++ [m]) } j =
      apiChat σ j ++ (if i = j then [m] else []) := by
  by_cases hij : i = j
  · subst hij
    simp only [apiChat, JsMap.get?_modify_self, if_true]
    simp only [JsMap.has] at h
    cases hg : σ.chatMessages.get? i with
    | none => simp [hg] at h
    | some l => simp
  · simp [apiChat, JsMap.get?_modify_ne _ _ hij, hij]

theorem apiChat_investorJoin (σ : State) (s : Socket) (d : Option String) (now : Nat)
    (j : String) : apiChat (investorJoin σ s d now).1 j = apiChat σ j := by
  simp only [investorJoin, apiChat]
  split
  · rfl
  · rename_i hhas
    by_cases hij : resolveId d now = j
    · subst hij
      rw [JsMap.get?_set_self]
      cases hg : σ.chatMessages.get? (resolveId d now) with
      | none => rfl
      | some l => simp [JsMap.has, hg] at hhas
    · rw [JsMap.get?_set_ne _ _ hij]

theorem apiChat_step (σ : State) (e : Event) (j : String) :
    apiChat (step σ e).1 j = apiChat σ j ++ newMessagesFor j (step σ e).2 := by
  cases e with
  | investorJoin s d now =>
    simp only [step, apiChat_investorJoin]
    simp [investorJoin, newMessagesFor]
  | investorMessage s m now =>
    simp only [step, investorMessage]
    split
    · rename_i i hi
      split
      · rename_i hhas
        rw [apiChat_modify_append _ _ _ _ hhas]
        by_cases hij : i = j <;> simp [newMessagesFor, hij]
      · simp [newMessagesFor]
    · simp [newMessagesFor]
  | adminMessage s d m now =>
    simp only [step, adminMessage]
    split
    · rename_i i hi
      split
      · rename_i hhas
        rw [apiChat_modify_append _ _ _ _ hhas]
        by_cases hij : i = j <;> simp [newMessagesFor, hij]
      · simp [newMessagesFor]
    · simp [newMessagesFor]
  | fileUploadStart s d => simp [step, fileUploadStart, newMessagesFor]
  | disconnect s =>
    simp only [step, disconnect]
    split <;> simp [newMessagesFor, apiChat]
  | upload req now =>
    simp only [step, upload]
    split <;> simp [newMessagesFor, apiChat]

theorem newMessagesFor_append (j : String) (a b : List Emit) :
    newMessagesFor j (a ++ b) = newMessagesFor j a ++ newMessagesFor j b := by
  simp [newMessagesFor, List.filterMap_append]

theorem apiChat_run (σ : State) (es : List Event) (j : String) :
    apiChat (run σ es).1 j = apiChat σ j ++ newMessagesFor j (run σ es).2 := by
  induction es generalizing σ with
  | nil => simp [run, newMessagesFor]
  | cons e es ih =>
    simp only [run]
    rw [ih, apiChat_step, newMessagesFor_append, List.append_assoc]

theorem newMessagesFor_step_of_target_ne (σ : State) (e : Event) (j : String)
    (h : e.messageTarget σ ≠ some j) : newMessagesFor j (step σ e).2 = [] := by
  cases e with
  | investorJoin s d now => simp [step, investorJoin, newMessagesFor]
  | investorMessage s m now =>
    simp only [step, investorMessage]
    split
    · rename_i i hi
      have hb := (truthy_eq_some hi).1
      simp only [Event.messageTarget, hb, ne_eq, Option.some.injEq] at h
      split <;> simp [newMessagesFor, h]
    · simp [newMessagesFor]
  | adminMessage s d m now =>
    simp only [step, adminMessage]
    split
    · rename_i i hi
      have hb := (truthy_eq_some hi).1
      simp only [Event.messageTarget, hb, ne_eq, Option.some.injEq] at h
      split <;> simp [newMessagesFor, h]
    · simp [newMessagesFor]
  | fileUploadStart s d => simp [step, fileUploadStart, newMessagesFor]
  | disconnect s =>
    simp only [step, disconnect]
    split <;> simp [newMessagesFor]
  | upload req now =>
    simp only [step, upload]
    split <;> simp [newMessagesFor]

/-- C2 (message ordering). For every state, every sequence of events and every investor `j`,
the conversation returned by `GET /api/chat/j` after the sequence is the conversation before
it followed by exactly the messages for `j` that the accepted `investor-message` and
`admin-message` events broadcast as `new-message`, in the order they were processed; from the
start-up state it is exactly that list. An event that is not a message event addressed to `j`
(a message for another investor, a join, a disconnect, an upload, a relay) leaves the
conversation of `j` as it was. -/
theorem message_ordering (σ : State) (es : List Event) (j : String) :
    apiChat (run σ es).1 j = apiChat σ j ++ newMessagesFor j (run σ es).2 ∧
    apiChat (run init es).1 j = newMessagesFor j (run init es).2 ∧
    ∀ e : Event, e.messageTarget σ ≠ some j → apiChat (step σ e).1 j = apiChat σ j := by
  refine ⟨apiChat_run σ es j, ?_, ?_⟩
  · rw [apiChat_run]
    simp [apiChat, init, JsMap.get?]
  · intro e he
    rw [apiChat_step, newMessagesFor_step_of_target_ne σ e j he, List.append_nil]

/-- Witness of `message_ordering`: two investors whose messages interleave. -/
theorem message_ordering_witness :
    apiChat (run init [Event.investorJoin sockA (some "a") 1, Event.investorJoin sockB (some "b") 2,
        Event.investorMessage sockA "one" 3, Event.investorMessage sockB "two" 4,
        Event.adminMessage sockB (some "a") "three" 5]).1 "a" =
      [{ id := "msg_3", type := MsgType.investor, content := "one", timestamp := 3,
         investorId := "a" },
       { id := "msg_5", type := MsgType.admin, content := "three", timestamp := 5,
         investorId := "a" }] ∧
    apiChat (step (run init [Event.investorJoin sockA (some "a") 1,
        Event.investorJoin sockB (some "b") 2]).1 (Event.investorMessage sockB "two" 4)).1 "a" =
      apiChat (run init [Event.investorJoin sockA (some "a") 1,
        Event.investorJoin sockB (some "b") 2]).1 "a" :=
  ⟨((message_ordering init [Event.investorJoin sockA (some "a") 1,
        Event.investorJoin sockB (some "b") 2,
        Event.investorMessage sockA "one" 3, Event.investorMessage sockB "two" 4,
        Event.adminMessage sockB (some "a") "three" 5] "a").2.1).trans (by decide),
   (message_ordering (run init [Event.investorJoin sockA (some "a") 1,
        Event.investorJoin sockB (some "b") 2]).1 [] "a").2.2
      (Event.investorMessage sockB "two" 4) (by decide)⟩

/-! ## C3: the admin write path is strict -/

theorem adminMessage_of_not_has (σ : State) (i : String) (c : String) (now : Nat)
    (h : σ.chatMessages.has i = false) : adminMessage σ (some i) c now = (σ, []) := by
  unfold adminMessage
  split
  · rename_i j hj
    have := (truthy_eq_some hj).1
    cases this
    simp [h]
  · rfl

theorem has_chat_step_of_not_joins (σ : State) (e : Event) (i : String)
    (he : e.joins i = false) :
    (step σ e).1.chatMessages.has i = σ.chatMessages.has i := by
  cases e with
  | investorJoin s d now =>
    have hne : resolveId d now ≠ i := by simpa [Event.joins] using he
    simp only [step, investorJoin]
    split
    · rfl
    · simp [JsMap.has, JsMap.get?_set_ne _ _ hne]
  | investorMessage s m now =>
    simp only [step, investorMessage]
    split
    · split
      · exact JsMap.has_modify _ _ _ _
      · rfl
    · rfl
  | adminMessage s d m now =>
    simp only [step, adminMessage]
    split
    · split
      · exact JsMap.has_modify _ _ _ _
      · rfl
    · rfl
  | fileUploadStart s d => rfl
  | disconnect s =>
    simp only [step, disconnect]
    split <;> rfl
  | upload req now =>
    simp only [step, upload]
    split <;> rfl

theorem has_chat_run_of_neverJoined (i : String) (es : List Event) (σ : State)
    (h : neverJoined i es = true) :
    (run σ es).1.chatMessages.has i = σ.chatMessages.has i := by
  induction es generalizing σ with
  | nil => rfl
  | cons e es ih =>
    simp only [neverJoined, List.all_cons, Bool.and_eq_true, Bool.not_eq_true'] at h
    simp only [run]
    rw [ih _ (by simpa [neverJoined] using h.2), has_chat_step_of_not_joins σ e i h.1]

/-- C3 (strict write path). In every state in which no conversation exists for the id `i`,
an `admin-message` event targeting `i` (from any connection, with any content, at any clock
reading) changes nothing: the whole state (session registry, every conversation, upload
ledger, connection bindings) is the same afterwards, so no conversation is created for `i`,
and no event is emitted. This is the case after every sequence of events from start-up in
which no `investor-join` resolved to `i`. -/
theorem admin_message_unknown_rejected (σ : State) (i : String) (s : Socket) (c : String)
    (now : Nat) :
    (σ.chatMessages.has i = false →
      step σ (Event.adminMessage s (some i) c now) = (σ, []) ∧
      (step σ (Event.adminMessage s (some i) c now)).1.chatMessages.has i = false) ∧
    (∀ es : List Event, neverJoined i es = true →
      step (run init es).1 (Event.adminMessage s (some i) c now) = ((run init es).1, [])) := by
  constructor
  · intro h
    have := adminMessage_of_not_has σ i c now h
    simp only [step]
    rw [this]
    exact ⟨rfl, h⟩
  · intro es hes
    simp only [step]
    apply adminMessage_of_not_has
    rw [has_chat_run_of_neverJoined i es init hes]
    rfl

/-- Witness of `admin_message_unknown_rejected`: investor `"a"` joined and wrote, `"ghost"`
never joined; an admin message to `"ghost"` is dropped. -/
theorem admin_message_unknown_rejected_witness :
    neverJoined "ghost"
      [Event.investorJoin sockA (some "a") 1, Event.investorMessage sockA "hi" 2] = true ∧
    step (run init [Event.investorJoin sockA (some "a") 1, Event.investorMessage sockA "hi" 2]).1
        (Event.adminMessage sockB (some "ghost") "hello" 3) =
      ((run init [Event.investorJoin sockA (some "a") 1, Event.investorMessage sockA "hi" 2]).1, []) ∧
    init.chatMessages.has "ghost" = false ∧
    step init (Event.adminMessage sockB (some "ghost") "hello" 3) = (init, []) :=
  ⟨by decide,
   (admin_message_unknown_rejected init "ghost" sockB "hello" 3).2 _ (by decide),
   by decide,
   ((admin_message_unknown_rejected init "ghost" sockB "hello" 3).1 (by decide)).1⟩

/-! ## C4: an investor message after a join is always appended -/

theorem socketInvestor_step_has (σ : State) (e : Event) (sid : String)
    (h : σ.socketInvestor.has sid = true) : (step σ e).1.socketInvestor.has sid = true := by
  cases e with
  | investorJoin s d now => exact JsMap.has_set_of_has _ _ _ h
  | investorMessage s m now =>
    simp only [step, investorMessage]
    split
    · split <;> exact h
    · exact h
  | adminMessage s d m now =>
    simp only [step, adminMessage]
    split
    · split <;> exact h
    · exact h
  | fileUploadStart s d => exact h
  | disconnect s =>
    simp only [step, disconnect]
    split <;> exact h
  | upload req now =>
    simp only [step, upload]
    split <;> exact h

theorem socketInvestor_run_has (σ : State) (es : List Event) (sid : String)
    (h : σ.socketInvestor.has sid = true) : (run σ es).1.socketInvestor.has sid = true := by
  induction es generalizing σ with
  | nil => exact h
  | cons e es ih => exact ih _ (socketInvestor_step_has σ e sid h)

theorem investorMessage_of_bound (σ : State) (hσ : Inv σ) (s : Socket) (i : String)
    (hb : σ.socketInvestor.get? s.id = some i) (c : String) (now : Nat) :
    investorMessage σ s c now =
      ({ σ with chatMessages :=
            σ.chatMessages.modify i (fun l => l ++ [investorMessageData i c now]) },
       [Emit.newMessage (investorMessageData i c now)]) := by
  obtain ⟨hne, hchat, _⟩ := hσ.bound s.id i hb
  simp [investorMessage, hb, truthy_some hne, hchat, investorMessageData]

/-- C4 (investor append after join). Start from any reachable state, let connection `s`
process an `investor-join` (with or without an id), then let any events follow. In the state
reached, `s` is bound to an id `i` that has a conversation `old`, and an `investor-message`
with content `c` on `s` is accepted: the conversation of `i` becomes `old` followed by exactly
one message, of type investor, with content `c` and investorId `i`; every other conversation,
the session registry, the upload ledger and the bindings are unchanged; and the one event
emitted is the `new-message` broadcast of that same message. -/
theorem investor_message_after_join (σ₀ : State) (h₀ : Reachable σ₀) (s : Socket)
    (d : Option String) (t : Nat) (es : List Event) (c : String) (now : Nat) :
    ∃ i old,
      (run (step σ₀ (Event.investorJoin s d t)).1 es).1.socketInvestor.get? s.id = some i ∧
      (run (step σ₀ (Event.investorJoin s d t)).1 es).1.chatMessages.get? i = some old ∧
      (investorMessageData i c now).type = MsgType.investor ∧
      (investorMessageData i c now).content = c ∧
      (investorMessageData i c now).investorId = i ∧
      step (run (step σ₀ (Event.investorJoin s d t)).1 es).1 (Event.investorMessage s c now) =
        ({ (run (step σ₀ (Event.investorJoin s d t)).1 es).1 with
            chatMessages := (run (step σ₀ (Event.investorJoin s d t)).1 es).1.chatMessages.modify i
              (fun l => l ++ [investorMessageData i c now]) },
         [Emit.newMessage (investorMessageData i c now)]) ∧
      (step (run (step σ₀ (Event.investorJoin s d t)).1 es).1
          (Event.investorMessage s c now)).1.chatMessages.get? i =
        some (old ++ [investorMessageData i c now]) ∧
      ∀ j, j ≠ i →
        (step (run (step σ₀ (Event.investorJoin s d t)).1 es).1
            (Event.investorMessage s c now)).1.chatMessages.get? j =
          (run (step σ₀ (Event.investorJoin s d t)).1 es).1.chatMessages.get? j := by
  have hr : Reachable (run (step σ₀ (Event.investorJoin s d t)).1 es).1 :=
    reachable_run (Reachable.step σ₀ _ h₀) es
  have hinv := inv_of_reachable hr
  have hhas : (run (step σ₀ (Event.investorJoin s d t)).1 es).1.socketInvestor.has s.id = true :=
    socketInvestor_run_has _ es s.id (JsMap.has_set_self _ _ _)
  generalize (run (step σ₀ (Event.investorJoin s d t)).1 es).1 = σ at hr hinv hhas ⊢
  cases hb : σ.socketInvestor.get? s.id with
  | none => simp [JsMap.has, hb] at hhas
  | some i =>
    obtain ⟨hne, hchat, _⟩ := hinv.bound s.id i hb
    cases hc : σ.chatMessages.get? i with
    | none => simp [JsMap.has, hc] at hchat
    | some old =>
      refine ⟨i, old, rfl, hc, rfl, rfl, rfl, ?_, ?_, ?_⟩
      · exact investorMessage_of_bound σ hinv s i hb c now
      · simp only [step]
        rw [investorMessage_of_bound σ hinv s i hb c now]
        simp [JsMap.get?_modify_self, hc]
      · intro j hj
        simp only [step]
        rw [investorMessage_of_bound σ hinv s i hb c now]
        exact JsMap.get?_modify_ne _ _ (fun e => hj e.symm)

/-- Witness of `investor_message_after_join`: a join without an id at clock reading 7, then
a message on the same connection. -/
theorem investor_message_after_join_witness :
    Reachable init ∧
    ∃ i old,
      (run (step init (Event.investorJoin sockA none 7)).1 []).1.socketInvestor.get? sockA.id = some i ∧
      (run (step init (Event.investorJoin sockA none 7)).1 []).1.chatMessages.get? i = some old ∧
      (step (run (step init (Event.investorJoin sockA none 7)).1 []).1
          (Event.investorMessage sockA "hello" 9)).1.chatMessages.get? i =
        some (old ++ [investorMessageData i "hello" 9]) :=
  ⟨Reachable.init,
   (investor_message_after_join init Reachable.init sockA none 7 [] "hello" 9).imp
    (fun _ h => h.imp (fun _ h' => ⟨h'.1, h'.2.1, h'.2.2.2.2.2.2.1⟩))⟩

/-! ## C5: conversations are append-only -/

theorem has_chat_step_mono (σ : State) (e : Event) (i : String)
    (h : σ.chatMessages.has i = true) : (step σ e).1.chatMessages.has i = true := by
  cases e with
  | investorJoin s d now =>
    simp only [step, investorJoin]
    split
    · exact h
    · exact JsMap.has_set_of_has _ _ _ h
  | investorMessage s m now =>
    simp only [step, investorMessage]
    split
    · split
      · rw [JsMap.has_modify]; exact h
      · exact h
    · exact h
  | adminMessage s d m now =>
    simp only [step, adminMessage]
    split
    · split
      · rw [JsMap.has_modify]; exact h
      · exact h
    · exact h
  | fileUploadStart s d => exact h
  | disconnect s =>
    simp only [step, disconnect]
    split <;> exact h
  | upload req now =>
    simp only [step, upload]
    split <;> exact h

theorem get?_chat_step (σ : State) (e : Event) (i : String) (msgs : List Message)
    (h : σ.chatMessages.get? i = some msgs) :
    (step σ e).1.chatMessages.get? i = some (msgs ++ newMessagesFor i (step σ e).2) := by
  have hhas : (step σ e).1.chatMessages.has i = true :=
    has_chat_step_mono σ e i (by simp [JsMap.has, h])
  have hc := apiChat_step σ e i
  simp only [apiChat, h, Option.getD_some] at hc
  cases hg : (step σ e).1.chatMessages.get? i with
  | none => simp [JsMap.has, hg] at hhas
  | some l => rw [hg] at hc; simpa using hc

theorem get?_chat_run (σ : State) (es : List Event) (i : String) (msgs : List Message)
    (h : σ.chatMessages.get? i = some msgs) :
    (run σ es).1.chatMessages.get? i = some (msgs ++ newMessagesFor i (run σ es).2) := by
  induction es generalizing σ msgs with
  | nil => simp [run, newMessagesFor, h]
  | cons e es ih =>
    simp only [run]
    rw [ih _ _ (get?_chat_step σ e i msgs h), newMessagesFor_append, List.append_assoc]

/-- C5 (append-only conversations). Let `msgs` be the conversation stored for `i` in a state.
After any single event (join, investor-message, admin-message, file-upload-start, disconnect,
upload) the conversation of `i` still exists and is `msgs` followed by zero or more messages;
the same holds after any sequence of events. In particular a disconnect of any connection
followed by an `investor-join` that carries the id `i` leaves the conversation of `i` exactly
`msgs`. -/
theorem conversations_append_only (σ : State) (i : String) (msgs : List Message)
    (h : σ.chatMessages.get? i = some msgs) :
    (∀ e : Event, ∃ extra, (step σ e).1.chatMessages.get? i = some (msgs ++ extra)) ∧
    (∀ es : List Event, ∃ extra, (run σ es).1.chatMessages.get? i = some (msgs ++ extra)) ∧
    (∀ (s s' : Socket) (t : Nat),
      (run σ [Event.disconnect s, Event.investorJoin s' (some i) t]).1.chatMessages.get? i =
        some msgs) := by
  refine ⟨fun e => ⟨_, get?_chat_step σ e i msgs h⟩, fun es => ⟨_, get?_chat_run σ es i msgs h⟩, ?_⟩
  intro s s' t
  rw [get?_chat_run σ _ i msgs h]
  have h1 : newMessagesFor i (step σ (Event.disconnect s)).2 = [] :=
    newMessagesFor_step_of_target_ne σ _ i (by simp [Event.messageTarget])
  have h2 : newMessagesFor i
      (step (step σ (Event.disconnect s)).1 (Event.investorJoin s' (some i) t)).2 = [] :=
    newMessagesFor_step_of_target_ne _ _ i (by simp [Event.messageTarget])
  simp only [run, List.append_nil, newMessagesFor_append, h1, h2]

/-- Witness of `conversations_append_only`: investor `"a"` has written one message, then
disconnects and joins again from another connection. -/
theorem conversations_append_only_witness :
    (run init [Event.investorJoin sockA (some "a") 1,
        Event.investorMessage sockA "hi" 2]).1.chatMessages.get? "a" =
      some [investorMessageData "a" "hi" 2] ∧
    (run (run init [Event.investorJoin sockA (some "a") 1, Event.investorMessage sockA "hi" 2]).1
        [Event.disconnect sockA, Event.investorJoin sockB (some "a") 3]).1.chatMessages.get? "a" =
      some [investorMessageData "a" "hi" 2] :=
  ⟨by decide,
   (conversations_append_only
      (run init [Event.investorJoin sockA (some "a") 1, Event.investorMessage sockA "hi" 2]).1
      "a" [investorMessageData "a" "hi" 2] (by decide)).2.2 sockA sockB 3⟩

/-! ## C6: a stale disconnect -/

/-- C6 (disconnect keyed by connection handle), evaluated on the code. Investor `"inv"` joins
on connection `A`, joins again with the same id on connection `B`, then `A` disconnects: the
session of `"inv"` is bound to `B` and has status inactive, the statistics report no investor
online, and `investor-left` is broadcast for `"inv"`, although `B` is connected. -/
theorem stale_disconnect_deactivates_rebound_session :
    (run init [Event.investorJoin sockA (some "inv") 1, Event.investorJoin sockB (some "inv") 2,
        Event.disconnect sockA]).1.activeInvestors.get? "inv" =
      some { id := "inv", socketId := "B", joinTime := 2, ip := "10.0.0.2", userAgent := none,
             status := Status.inactive } ∧
    (apiStats (run init [Event.investorJoin sockA (some "inv") 1,
        Event.investorJoin sockB (some "inv") 2, Event.disconnect sockA]).1).onlineInvestors = 0 ∧
    (step (run init [Event.investorJoin sockA (some "inv") 1,
        Event.investorJoin sockB (some "inv") 2]).1 (Event.disconnect sockA)).2 =
      [Emit.investorLeft "inv"] := by
  decide

/-! ## C7: presence and statistics -/

namespace JsMap
variable {α : Type}

theorem get?_of_mem (m : JsMap α) (h : m.keys.Nodup) {k : String} {v : α}
    (hm : (k, v) ∈ m) : m.get? k = some v := by
  induction m with
  | nil => simp at hm
  | cons p rest ih =>
    obtain ⟨k', v'⟩ := p
    simp only [keys, List.map_cons, List.nodup_cons, List.mem_map, Prod.exists,
      exists_and_right, exists_eq_right, not_exists] at h
    simp only [List.mem_cons, Prod.mk.injEq] at hm
    rcases hm with ⟨rfl, rfl⟩ | hm
    · simp [get?]
    · have hne : k' ≠ k := by
        rintro rfl
        exact h.1 v hm
      simp only [get?, hne, if_false]
      exact ih h.2 hm

theorem length_filter_values (m : JsMap α) (h : m.keys.Nodup) (p : α → Bool) :
    (m.values.filter p).length =
      (m.keys.toFinset.filter (fun k => (m.get? k).any p = true)).card := by
  have h1 : (m.values.filter p).length = ((m.filter (fun e => p e.2)).map Prod.fst).length := by
    simp only [values, List.filter_map, List.length_map]
    rfl
  have h2 : m.filter (fun e => p e.2) = m.filter (fun e => (m.get? e.1).any p) := by
    apply List.filter_congr
    intro e he
    rw [get?_of_mem m h he]
    rfl
  have h3 : (m.filter (fun e => (m.get? e.1).any p)).map Prod.fst =
      m.keys.filter (fun k => (m.get? k).any p) := by
    simp only [keys, List.filter_map]
    rfl
  rw [h1, h2, h3, ← List.toFinset_filter, List.toFinset_card_of_nodup (h.filter _)]

theorem size_modify (m : JsMap α) (k : String) (f : α → α) : (m.modify k f).size = m.size := by
  rw [size_eq_length_keys, size_eq_length_keys, keys_modify]

theorem length_filter_modify (m : JsMap α) (k : String) (f : α → α) (p : α → Bool) {v : α}
    (hg : m.get? k = some v) (hv : p v = true) (hf : p (f v) = false) :
    ((m.modify k f).values.filter p).length + 1 = (m.values.filter p).length := by
  induction m with
  | nil => simp [get?] at hg
  | cons e rest ih =>
    obtain ⟨k', v'⟩ := e
    by_cases h : k' = k
    · subst h
      simp only [get?, if_true, Option.some.injEq] at hg
      subst hg
      simp [modify, values, List.filter_cons, hv, hf]
    · simp only [get?, h, if_false] at hg
      have := ih hg
      simp only [values] at this
      by_cases hp : p v' = true
      · simp [modify, values, h, List.filter_cons, hp]
        omega
      · simp [modify, values, h, List.filter_cons, hp]
        omega

end JsMap

/-- C7 (presence and statistics). In every reachable state `GET /api/stats` reports as
`onlineInvestors` the number of investor ids whose session record has status active and as
`totalInvestors` the number of investor ids that have a session record. When a connection `s`
bound to an investor `i` whose record `r` is active disconnects, the record of `i` is kept
with every field as before except that its status is inactive, `onlineInvestors` decreases by
exactly one and `totalInvestors` is unchanged. -/
theorem presence_stats (σ : State) (hσ : Reachable σ) :
    (apiStats σ).onlineInvestors =
      (σ.activeInvestors.keys.toFinset.filter (fun i =>
        (σ.activeInvestors.get? i).any (fun r => decide (r.status = Status.active)) = true)).card ∧
    (apiStats σ).totalInvestors = σ.activeInvestors.keys.toFinset.card ∧
    ∀ (s : Socket) (i : String) (r : Investor),
      σ.socketInvestor.get? s.id = some i → σ.activeInvestors.get? i = some r →
      r.status = Status.active →
        (step σ (Event.disconnect s)).1.activeInvestors.get? i =
          some { r with status := Status.inactive } ∧
        (apiStats (step σ (Event.disconnect s)).1).onlineInvestors + 1 =
          (apiStats σ).onlineInvestors ∧
        (apiStats (step σ (Event.disconnect s)).1).totalInvestors =
          (apiStats σ).totalInvestors := by
  have hinv := inv_of_reachable hσ
  refine ⟨?_, ?_, ?_⟩
  · exact JsMap.length_filter_values _ hinv.investorsNodup _
  · simp only [apiStats]
    rw [JsMap.size_eq_length_keys, List.toFinset_card_of_nodup hinv.investorsNodup]
  · intro s i r hb hr hact
    obtain ⟨hne, _, _⟩ := hinv.bound s.id i hb
    have hd : (step σ (Event.disconnect s)).1 =
        { σ with activeInvestors :=
            σ.activeInvestors.modify i (fun inv => { inv with status := Status.inactive }) } := by
      simp [step, disconnect, hb, truthy_some hne]
    rw [hd]
    refine ⟨?_, ?_, ?_⟩
    · simp [JsMap.get?_modify_self, hr]
    · simp only [apiStats]
      exact JsMap.length_filter_modify _ i _ _ hr (by simp [hact]) (by simp)
    · simp only [apiStats]
      exact JsMap.size_modify _ _ _

/-- Witness of `presence_stats`: two investors online, the first one disconnects. -/
theorem presence_stats_witness :
    Reachable (run init [Event.investorJoin sockA (some "a") 1,
      Event.investorJoin sockB (some "b") 2]).1 ∧
    (apiStats (run init [Event.investorJoin sockA (some "a") 1,
      Event.investorJoin sockB (some "b") 2]).1).onlineInvestors = 2 ∧
    (apiStats (step (run init [Event.investorJoin sockA (some "a") 1,
      Event.investorJoin sockB (some "b") 2]).1 (Event.disconnect sockA)).1).onlineInvestors + 1 =
      (apiStats (run init [Event.investorJoin sockA (some "a") 1,
        Event.investorJoin sockB (some "b") 2]).1).onlineInvestors ∧
    (apiStats (step (run init [Event.investorJoin sockA (some "a") 1,
      Event.investorJoin sockB (some "b") 2]).1 (Event.disconnect sockA)).1).totalInvestors =
      (apiStats (run init [Event.investorJoin sockA (some "a") 1,
        Event.investorJoin sockB (some "b") 2]).1).totalInvestors :=
  ⟨reachable_run Reachable.init _, by decide,
   ((presence_stats _ (reachable_run Reachable.init _)).2.2 sockA "a"
      { id := "a", socketId := "A", joinTime := 1, ip := "10.0.0.1", userAgent := some "ua",
        status := Status.active } (by decide) (by decide) (by decide)).2⟩

/-! ## C8: `joinTime` and reconnects -/

/-- C8 as stated fails: investor `"inv"` joins at clock reading 100, which creates the record
with `joinTime` 100; after a disconnect and a join with the same id at clock reading 200 the
record has `joinTime` 200. -/
theorem joinTime_overwritten_on_reconnect :
    joinTimeOf (run init [Event.investorJoin sockA (some "inv") 100]).1 "inv" = some 100 ∧
    joinTimeOf (run init [Event.investorJoin sockA (some "inv") 100, Event.disconnect sockA,
      Event.investorJoin sockB (some "inv") 200]).1 "inv" = some 200 ∧
    joinTimeOf (run init [Event.investorJoin sockA (some "inv") 100, Event.disconnect sockA,
      Event.investorJoin sockB (some "inv") 200]).1 "inv" ≠
      joinTimeOf (run init [Event.investorJoin sockA (some "inv") 100]).1 "inv" := by
  decide

theorem joinTimeOf_step (σ : State) (e : Event) (i : String) :
    joinTimeOf (step σ e).1 i =
      match e.joinTimeFor i with
      | some t => some t
      | none => joinTimeOf σ i := by
  cases e with
  | investorJoin s d now =>
    simp only [step, investorJoin, joinTimeOf, Event.joinTimeFor]
    by_cases h : resolveId d now = i
    · subst h
      simp [JsMap.get?_set_self]
    · simp [h, JsMap.get?_set_ne _ _ h]
  | investorMessage s m now =>
    simp only [step, investorMessage, Event.joinTimeFor]
    split
    · split <;> rfl
    · rfl
  | adminMessage s d m now =>
    simp only [step, adminMessage, Event.joinTimeFor]
    split
    · split <;> rfl
    · rfl
  | fileUploadStart s d => rfl
  | disconnect s =>
    simp only [step, disconnect, Event.joinTimeFor]
    split
    · rename_i j hj
      simp only [joinTimeOf]
      by_cases h : j = i
      · subst h
        rw [JsMap.get?_modify_self]
        cases σ.activeInvestors.get? j <;> rfl
      · rw [JsMap.get?_modify_ne _ _ h]
    · rfl
  | upload req now =>
    simp only [step, upload, Event.joinTimeFor]
    split <;> rfl

theorem joinTimeOf_run (σ : State) (es : List Event) (i : String) :
    joinTimeOf (run σ es).1 i =
      match lastJoinTime i es with
      | some t => some t
      | none => joinTimeOf σ i := by
  induction es generalizing σ with
  | nil => rfl
  | cons e es ih =>
    simp only [run, lastJoinTime]
    rw [ih, joinTimeOf_step]
    cases lastJoinTime i es <;> rfl

/-- C8, amended. The `joinTime` stored in the session record of `i` is the clock reading of
the most recent `investor-join` event that resolved to `i`: every such join, the first one as
well as a reconnect, stores its own clock reading; every other event leaves the `joinTime` of
`i` as it was; so after any sequence of events from start-up the `joinTime` of `i` is that of
the last join for `i` in the sequence (and there is no record when there was no such join). -/
theorem joinTime_is_latest_join (σ : State) (i : String) :
    (∀ (s : Socket) (d : Option String) (now : Nat), resolveId d now = i →
      joinTimeOf (step σ (Event.investorJoin s d now)).1 i = some now) ∧
    (∀ e : Event, e.joins i = false → joinTimeOf (step σ e).1 i = joinTimeOf σ i) ∧
    (∀ es : List Event, joinTimeOf (run init es).1 i = lastJoinTime i es) := by
  refine ⟨?_, ?_, ?_⟩
  · intro s d now h
    rw [joinTimeOf_step]
    simp [Event.joinTimeFor, h]
  · intro e he
    rw [joinTimeOf_step]
    cases e with
    | investorJoin s d now =>
      have : resolveId d now ≠ i := by simpa [Event.joins] using he
      simp [Event.joinTimeFor, this]
    | investorMessage s m now => rfl
    | adminMessage s d m now => rfl
    | fileUploadStart s d => rfl
    | disconnect s => rfl
    | upload req now => rfl
  · intro es
    rw [joinTimeOf_run]
    cases lastJoinTime i es <;> rfl

/-- Witness of `joinTime_is_latest_join`: a reconnect at clock reading 200 stores 200, and a
message sent afterwards leaves it. -/
theorem joinTime_is_latest_join_witness :
    resolveId (some "inv") 200 = "inv" ∧
    joinTimeOf (step (run init [Event.investorJoin sockA (some "inv") 100]).1
      (Event.investorJoin sockB (some "inv") 200)).1 "inv" = some 200 ∧
    (Event.investorMessage sockB "hi" 300).joins "inv" = false ∧
    joinTimeOf (step (run init [Event.investorJoin sockA (some "inv") 100,
      Event.investorJoin sockB (some "inv") 200]).1 (Event.investorMessage sockB "hi" 300)).1 "inv" =
      joinTimeOf (run init [Event.investorJoin sockA (some "inv") 100,
        Event.investorJoin sockB (some "inv") 200]).1 "inv" :=
  ⟨by decide,
   (joinTime_is_latest_join _ "inv").1 sockB (some "inv") 200 (by decide),
   by decide,
   (joinTime_is_latest_join _ "inv").2.1 (Event.investorMessage sockB "hi" 300) (by decide)⟩

/-! ## C9: message ids under rapid sends -/

/-- C9 (unique message ids), evaluated on the code. Investor `"a"` joins and sends `"first"`
and `"second"` at the same clock reading 5: the conversation stores two different messages
and both have the id `"msg_5"`. -/
theorem message_ids_collide_at_same_clock_reading :
    (run init [Event.investorJoin sockA (some "a") 1, Event.investorMessage sockA "first" 5,
        Event.investorMessage sockA "second" 5]).1.chatMessages.get? "a" =
      some [investorMessageData "a" "first" 5, investorMessageData "a" "second" 5] ∧
    investorMessageData "a" "first" 5 ≠ investorMessageData "a" "second" 5 ∧
    (investorMessageData "a" "first" 5).id = "msg_5" ∧
    (investorMessageData "a" "second" 5).id = "msg_5" := by
  decide

/-! ## C10: the upload ledger under rapid uploads -/

/-- C10 (upload ledger is a pure append), evaluated on the code. Two uploads with a file
present are accepted at the same clock reading 5: both are announced by `file-uploaded`, yet
`GET /api/uploads` lists one entry, the second upload, stored under the id `"file_5"`, and
`totalFiles` is 1; the entry of the first upload is gone. -/
theorem second_upload_at_same_clock_reading_replaces_first :
    apiUploads (run init [Event.upload (uploadReq "1-a.png" "a.png" 10 (some "x")) 5]).1 =
      [{ id := "file_5", filename := "1-a.png", originalName := "a.png", size := 10,
         uploadTime := 5, ip := "10.0.0.9", investorId := "x" }] ∧
    apiUploads (run init [Event.upload (uploadReq "1-a.png" "a.png" 10 (some "x")) 5,
        Event.upload (uploadReq "2-b.png" "b.png" 20 (some "y")) 5]).1 =
      [{ id := "file_5", filename := "2-b.png", originalName := "b.png", size := 20,
         uploadTime := 5, ip := "10.0.0.9", investorId := "y" }] ∧
    (apiStats (run init [Event.upload (uploadReq "1-a.png" "a.png" 10 (some "x")) 5,
        Event.upload (uploadReq "2-b.png" "b.png" 20 (some "y")) 5]).1).totalFiles = 1 ∧
    (run init [Event.upload (uploadReq "1-a.png" "a.png" 10 (some "x")) 5,
        Event.upload (uploadReq "2-b.png" "b.png" 20 (some "y")) 5]).2.length = 2 := by
  decide

/-! ## C11: a join without an id -/

/-- C11 (a join without an id allocates a new identity), evaluated on the code. Two
connections `A` and `B` each send an `investor-join` without an id at the same clock reading
5. Both resolve to the id `"inv_5"`: after the second join the registry still has one record,
the record created for `A` has been overwritten with the handshake data of `B`, both
connections are bound to `"inv_5"`, and a message sent on `A` and a message sent on `B` land
in the same conversation. -/
theorem join_without_id_reuses_id_at_same_clock_reading :
    (run init [Event.investorJoin sockA none 5]).1.activeInvestors.keys = ["inv_5"] ∧
    (run init [Event.investorJoin sockA none 5]).1.activeInvestors.get? "inv_5" =
      some { id := "inv_5", socketId := "A", joinTime := 5, ip := "10.0.0.1",
             userAgent := some "ua", status := Status.active } ∧
    (run init [Event.investorJoin sockA none 5,
        Event.investorJoin sockB none 5]).1.activeInvestors.size = 1 ∧
    (run init [Event.investorJoin sockA none 5,
        Event.investorJoin sockB none 5]).1.activeInvestors.get? "inv_5" =
      some { id := "inv_5", socketId := "B", joinTime := 5, ip := "10.0.0.2",
             userAgent := none, status := Status.active } ∧
    (run init [Event.investorJoin sockA none 5,
        Event.investorJoin sockB none 5]).1.socketInvestor = [("A", "inv_5"), ("B", "inv_5")] ∧
    apiChat (run init [Event.investorJoin sockA none 5, Event.investorMessage sockA "from A" 6,
        Event.investorJoin sockB none 5, Event.investorMessage sockB "from B" 7]).1 "inv_5" =
      [investorMessageData "inv_5" "from A" 6, investorMessageData "inv_5" "from B" 7] := by
  decide

/-! ## C12: a join with an id -/

/-- C12 (join reactivates and rebinds). In every state, after an `investor-join` that carries
a non-empty id `i` on connection `s`, the session stored for `i` has id `i`, status active and
connection handle `s` (whatever was stored before), a conversation exists for `i`, connection
`s` is bound to `i`, and the one event emitted is the `new-investor` broadcast for `i`. -/
theorem join_reactivates_and_rebinds (σ : State) (s : Socket) (i : String) (hi : i ≠ "")
    (now : Nat) :
    (step σ (Event.investorJoin s (some i) now)).1.activeInvestors.get? i =
      some { id := i, socketId := s.id, joinTime := now, ip := s.address,
             userAgent := s.userAgent, status := Status.active } ∧
    (step σ (Event.investorJoin s (some i) now)).1.chatMessages.has i = true ∧
    (step σ (Event.investorJoin s (some i) now)).1.socketInvestor.get? s.id = some i ∧
    (step σ (Event.investorJoin s (some i) now)).2 = [Emit.newInvestor i now s.address] := by
  simp only [step, investorJoin, resolveId_some hi]
  refine ⟨JsMap.get?_set_self _ _ _, ?_, JsMap.get?_set_self _ _ _, trivial⟩
  split
  · assumption
  · exact JsMap.has_set_self _ _ _

/-- Witness of `join_reactivates_and_rebinds`: investor `"a"` joined on `A` and disconnected,
so the record is inactive and bound to `A`; a join with the id `"a"` on `B` makes it active
and bound to `B`. -/
theorem join_reactivates_and_rebinds_witness :
    "a" ≠ "" ∧
    ((run init [Event.investorJoin sockA (some "a") 1,
        Event.disconnect sockA]).1.activeInvestors.get? "a").map Investor.status =
      some Status.inactive ∧
    (step (run init [Event.investorJoin sockA (some "a") 1, Event.disconnect sockA]).1
        (Event.investorJoin sockB (some "a") 2)).1.activeInvestors.get? "a" =
      some { id := "a", socketId := sockB.id, joinTime := 2, ip := sockB.address,
             userAgent := sockB.userAgent, status := Status.active } :=
  ⟨by decide, by decide,
   (join_reactivates_and_rebinds
      (run init [Event.investorJoin sockA (some "a") 1, Event.disconnect sockA]).1
      sockB "a" (by decide) 2).1⟩

/-! ## C13: upload validation -/

theorem fileFilter_iff (m : String) : fileFilter m = true ↔ ∃ rest : String, m = "image/" ++ rest := by
  simp only [fileFilter, List.isPrefixOf_iff_prefix]
  constructor
  · rintro ⟨t, ht⟩
    exact ⟨⟨t⟩, String.ext (by simp [← ht])⟩
  · rintro ⟨rest, rfl⟩
    exact ⟨rest.data, by simp⟩

theorem keys_count_set_self {α : Type} (m : JsMap α) (h : m.keys.Nodup) (k : String) (v : α) :
    (m.set k v).keys.count k = 1 :=
  List.count_eq_one_of_mem (JsMap.nodup_keys_set m k v h) (JsMap.mem_keys_set m k v)

theorem size_set_of_not_has {α : Type} (m : JsMap α) (k : String) (v : α)
    (h : m.has k = false) : (m.set k v).size = m.size + 1 := by
  have hk : k ∉ m.keys := by
    intro hm
    rw [← JsMap.has_iff_mem_keys, h] at hm
    exact Bool.noConfusion hm
  rw [JsMap.size_eq_length_keys, JsMap.size_eq_length_keys, JsMap.keys_set, if_neg hk]
  simp

/-- C13 (upload validation). For an upload that carries a file part `f`: the content type
passes the filter exactly when it starts with `image/`; the upload is accepted exactly when
the content type passes the filter and the size is at most 10 MiB (10 * 1024 * 1024 bytes);
a rejected upload leaves the whole state unchanged (no ledger entry) and emits nothing; an
accepted upload emits exactly one event, the `file-uploaded` broadcast of its `fileInfo`, and
in a reachable state the ledger afterwards holds exactly one entry under the id of that
`fileInfo`, namely that `fileInfo` (one more entry than before when the id was not in use). -/
theorem upload_validation (σ : State) (f : FilePart) (ip : String) (inv : Option String)
    (now : Nat) :
    (fileFilter f.mimetype = true ↔ ∃ rest : String, f.mimetype = "image/" ++ rest) ∧
    ((∃ req, uploadSingle { file := some f, ip := ip, investorId := inv } = Except.ok req) ↔
      (fileFilter f.mimetype = true ∧ f.size ≤ 10 * 1024 * 1024)) ∧
    (¬ (fileFilter f.mimetype = true ∧ f.size ≤ 10 * 1024 * 1024) →
      postUpload σ { file := some f, ip := ip, investorId := inv } now = (σ, [])) ∧
    (fileFilter f.mimetype = true ∧ f.size ≤ 10 * 1024 * 1024 →
      (postUpload σ { file := some f, ip := ip, investorId := inv } now).2 =
        [Emit.fileUploaded (fileInfoOf f ip inv now)] ∧
      (postUpload σ { file := some f, ip := ip, investorId := inv } now).1.uploadedFiles.get?
        (fileInfoOf f ip inv now).id = some (fileInfoOf f ip inv now) ∧
      (Reachable σ →
        (postUpload σ { file := some f, ip := ip, investorId := inv }
          now).1.uploadedFiles.keys.count (fileInfoOf f ip inv now).id = 1) ∧
      (σ.uploadedFiles.has (fileInfoOf f ip inv now).id = false →
        (postUpload σ { file := some f, ip := ip, investorId := inv } now).1.uploadedFiles.size =
          σ.uploadedFiles.size + 1)) := by
  refine ⟨fileFilter_iff _, ?_, ?_, ?_⟩
  · by_cases h1 : fileFilter f.mimetype = true
    · by_cases h2 : f.size ≤ 10 * 1024 * 1024
      · simp [uploadSingle, withinFileSizeLimit, fileSizeLimit, h1, h2]
      · simp [uploadSingle, withinFileSizeLimit, fileSizeLimit, h1, h2]
    · simp [uploadSingle, h1]
  · intro h
    by_cases h1 : fileFilter f.mimetype = true
    · have h2 : ¬ f.size ≤ 10 * 1024 * 1024 := fun h2 => h ⟨h1, h2⟩
      simp [postUpload, uploadSingle, withinFileSizeLimit, fileSizeLimit, h1, h2]
    · simp [postUpload, uploadSingle, h1]
  · rintro ⟨h1, h2⟩
    have hp : postUpload σ { file := some f, ip := ip, investorId := inv } now =
        ({ σ with uploadedFiles :=
            σ.uploadedFiles.set (fileInfoOf f ip inv now).id (fileInfoOf f ip inv now) },
         [Emit.fileUploaded (fileInfoOf f ip inv now)]) := by
      simp [postUpload, uploadSingle, withinFileSizeLimit, fileSizeLimit, h1, h2, upload,
        fileInfoOf]
    rw [hp]
    refine ⟨rfl, JsMap.get?_set_self _ _ _, ?_, ?_⟩
    · intro hσ
      exact keys_count_set_self _ (inv_of_reachable hσ).filesNodup _ _
    · intro hfresh
      exact size_set_of_not_has _ _ _ hfresh

/-- Witness of `upload_validation`: a PDF and an image of 11 MiB are rejected, an image of
exactly 10 MiB is accepted and recorded. -/
theorem upload_validation_witness :
    postUpload init { file := some (partOf "application/pdf" 1000), ip := "10.0.0.9",
                      investorId := some "x" } 5 = (init, []) ∧
    postUpload init { file := some (partOf "image/png" (11 * 1024 * 1024)), ip := "10.0.0.9",
                      investorId := some "x" } 5 = (init, []) ∧
    (postUpload init { file := some (partOf "image/png" (10 * 1024 * 1024)), ip := "10.0.0.9",
                       investorId := some "x" } 5).2 =
      [Emit.fileUploaded (fileInfoOf (partOf "image/png" (10 * 1024 * 1024)) "10.0.0.9"
        (some "x") 5)] ∧
    (postUpload init { file := some (partOf "image/png" (10 * 1024 * 1024)), ip := "10.0.0.9",
                       investorId := some "x" } 5).1.uploadedFiles.size = 1 :=
  ⟨(upload_validation init (partOf "application/pdf" 1000) "10.0.0.9" (some "x") 5).2.2.1
      (by decide),
   (upload_validation init (partOf "image/png" (11 * 1024 * 1024)) "10.0.0.9" (some "x")
      5).2.2.1 (by decide),
   ((upload_validation init (partOf "image/png" (10 * 1024 * 1024)) "10.0.0.9" (some "x")
      5).2.2.2 (by decide)).1,
   ((upload_validation init (partOf "image/png" (10 * 1024 * 1024)) "10.0.0.9" (some "x")
      5).2.2.2 (by decide)).2.2.2 (by decide)⟩

/-! ## Keys of the registry and of the conversation store -/

theorem JsMap.has_set_ne {α : Type} (m : JsMap α) {k k' : String} (v : α) (h : k ≠ k') :
    (m.set k v).has k' = m.has k' := by
  simp [JsMap.has, JsMap.get?_set_ne m v h]

theorem has_chat_eq_has_session_step (σ : State) (e : Event)
    (h : ∀ j, σ.chatMessages.has j = σ.activeInvestors.has j) (j : String) :
    (step σ e).1.chatMessages.has j = (step σ e).1.activeInvestors.has j := by
  cases e with
  | investorJoin s d now =>
    simp only [step, investorJoin]
    by_cases hj : resolveId d now = j
    · subst hj
      rw [JsMap.has_set_self]
      split
      · assumption
      · exact JsMap.has_set_self _ _ _
    · rw [JsMap.has_set_ne _ _ hj]
      split
      · exact h j
      · rw [JsMap.has_set_ne _ _ hj]; exact h j
  | investorMessage s m now =>
    simp only [step, investorMessage]
    split
    · split
      · rw [JsMap.has_modify]; exact h j
      · exact h j
    · exact h j
  | adminMessage s d m now =>
    simp only [step, adminMessage]
    split
    · split
      · rw [JsMap.has_modify]; exact h j
      · exact h j
    · exact h j
  | fileUploadStart s d => exact h j
  | disconnect s =>
    simp only [step, disconnect]
    split
    · rw [JsMap.has_modify]; exact h j
    · exact h j
  | upload req now =>
    simp only [step, upload]
    split <;> exact h j

theorem has_chat_eq_has_session {σ : State} (hσ : Reachable σ) (j : String) :
    σ.chatMessages.has j = σ.activeInvestors.has j := by
  induction hσ generalizing j with
  | init => rfl
  | step σ e _ ih => exact has_chat_eq_has_session_step σ e ih j

theorem chat_key_ne_empty_step (σ : State) (e : Event)
    (h : ∀ j, σ.chatMessages.has j = true → j ≠ "") (j : String)
    (hj : (step σ e).1.chatMessages.has j = true) : j ≠ "" := by
  cases e with
  | investorJoin s d now =>
    simp only [step, investorJoin] at hj
    by_cases hd : resolveId d now = j
    · subst hd; exact resolveId_ne_empty d now
    · split at hj
      · exact h j hj
      · rw [JsMap.has_set_ne _ _ hd] at hj; exact h j hj
  | investorMessage s m now =>
    simp only [step, investorMessage] at hj
    split at hj
    · split at hj
      · rw [JsMap.has_modify] at hj; exact h j hj
      · exact h j hj
    · exact h j hj
  | adminMessage s d m now =>
    simp only [step, adminMessage] at hj
    split at hj
    · split at hj
      · rw [JsMap.has_modify] at hj; exact h j hj
      · exact h j hj
    · exact h j hj
  | fileUploadStart s d => exact h j hj
  | disconnect s =>
    simp only [step, disconnect] at hj
    split at hj <;> exact h j hj
  | upload req now =>
    simp only [step, upload] at hj
    split at hj <;> exact h j hj

theorem chat_key_ne_empty {σ : State} (hσ : Reachable σ) (j : String)
    (hj : σ.chatMessages.has j = true) : j ≠ "" := by
  induction hσ generalizing j with
  | init => simp [init, JsMap.has, JsMap.get?] at hj
  | step σ e _ ih => exact chat_key_ne_empty_step σ e ih j hj

theorem adminMessage_of_has (σ : State) (i : String) (hi : i ≠ "")
    (hc : σ.chatMessages.has i = true) (c : String) (now : Nat) :
    adminMessage σ (some i) c now =
      ({ σ with chatMessages :=
            σ.chatMessages.modify i (fun l => l ++ [adminMessageData i c now]) },
       [Emit.adminMessageTo ((σ.activeInvestors.get? i).map Investor.socketId)
          (adminMessageData i c now),
        Emit.newMessage (adminMessageData i c now)]) := by
  simp [adminMessage, truthy_some hi, hc, adminMessageData]

theorem session_of_has_chat {σ : State} (hσ : Reachable σ) (i : String)
    (hc : σ.chatMessages.has i = true) : ∃ r, σ.activeInvestors.get? i = some r := by
  have h := has_chat_eq_has_session hσ i
  rw [hc] at h
  cases hg : σ.activeInvestors.get? i with
  | none => simp [JsMap.has, hg] at h
  | some r => exact ⟨r, rfl⟩

/-! ## C14: fan-out of an admin message -/

/-- C14 (admin message fan-out). In every reachable state in which investor `i` has joined
(a conversation `old` exists for `i`), a session record `r` exists for `i` and an
`admin-message` for `i` with content `c`, from any connection, is accepted: the conversation
of `i` becomes `old` followed by exactly one message of type admin with content `c` and
investorId `i`; nothing else in the state changes; the events emitted are the targeted
`admin-message` addressed to the connection handle stored in the session of `i`, then the
`new-message` broadcast of the same message. Whatever the status of `r`, the message is
appended. The targeted event reaches exactly that connection when it is open, and no
connection when it has disconnected. -/
theorem admin_message_fan_out (σ : State) (hσ : Reachable σ) (i : String)
    (old : List Message) (hc : σ.chatMessages.get? i = some old) (s : Socket) (c : String)
    (now : Nat) :
    ∃ r, σ.activeInvestors.get? i = some r ∧
      (adminMessageData i c now).type = MsgType.admin ∧
      (adminMessageData i c now).content = c ∧
      (adminMessageData i c now).investorId = i ∧
      step σ (Event.adminMessage s (some i) c now) =
        ({ σ with chatMessages :=
              σ.chatMessages.modify i (fun l => l ++ [adminMessageData i c now]) },
         [Emit.adminMessageTo (some r.socketId) (adminMessageData i c now),
          Emit.newMessage (adminMessageData i c now)]) ∧
      (step σ (Event.adminMessage s (some i) c now)).1.chatMessages.get? i =
        some (old ++ [adminMessageData i c now]) ∧
      (∀ j, j ≠ i →
        (step σ (Event.adminMessage s (some i) c now)).1.chatMessages.get? j =
          σ.chatMessages.get? j) ∧
      (∀ live : List String, live.Nodup → r.socketId ∈ live →
        targetedDelivery live (step σ (Event.adminMessage s (some i) c now)).2 =
          [r.socketId]) ∧
      (∀ live : List String, r.socketId ∉ live →
        targetedDelivery live (step σ (Event.adminMessage s (some i) c now)).2 = []) := by
  have hhas : σ.chatMessages.has i = true := by simp [JsMap.has, hc]
  have hi := chat_key_ne_empty hσ i hhas
  obtain ⟨r, hr⟩ := session_of_has_chat hσ i hhas
  have hstep : step σ (Event.adminMessage s (some i) c now) =
      ({ σ with chatMessages :=
            σ.chatMessages.modify i (fun l => l ++ [adminMessageData i c now]) },
       [Emit.adminMessageTo (some r.socketId) (adminMessageData i c now),
        Emit.newMessage (adminMessageData i c now)]) := by
    simp only [step]
    rw [adminMessage_of_has σ i hi hhas c now, hr]
    rfl
  refine ⟨r, hr, rfl, rfl, rfl, hstep, ?_, ?_, ?_, ?_⟩
  · rw [hstep]
    simp [JsMap.get?_modify_self, hc]
  · intro j hj
    rw [hstep]
    exact JsMap.get?_modify_ne _ _ (fun e => hj e.symm)
  · intro live hnd hmem
    rw [hstep]
    simp only [targetedDelivery, List.append_nil]
    have hcount : live.count r.socketId = 1 := List.count_eq_one_of_mem hnd hmem
    have : live.filter (fun l => decide (l = r.socketId)) =
        List.replicate (live.count r.socketId) r.socketId := by
      rw [List.count, List.countP_eq_length_filter]
      apply List.eq_replicate_of_mem
      intro b hb
      simpa using (List.mem_filter.mp hb).2
    · rw [this, hcount]
      rfl
  · intro live hmem
    rw [hstep]
    simp only [targetedDelivery, List.append_nil]
    apply List.filter_eq_nil_iff.mpr
    intro a ha
    simp only [decide_eq_true_eq]
    rintro rfl
    exact hmem ha

/-- Witness of `admin_message_fan_out`: investor `"a"` joined on `A` and disconnected; an
admin message to `"a"` is stored, addressed to `A`, and reaches none of the open connections
`B`, `C`. -/
theorem admin_message_fan_out_witness :
    Reachable (run init [Event.investorJoin sockA (some "a") 1, Event.disconnect sockA]).1 ∧
    apiChat (step (run init [Event.investorJoin sockA (some "a") 1, Event.disconnect sockA]).1
        (Event.adminMessage sockB (some "a") "hi" 3)).1 "a" = [adminMessageData "a" "hi" 3] ∧
    (step (run init [Event.investorJoin sockA (some "a") 1, Event.disconnect sockA]).1
        (Event.adminMessage sockB (some "a") "hi" 3)).2 =
      [Emit.adminMessageTo (some "A") (adminMessageData "a" "hi" 3),
       Emit.newMessage (adminMessageData "a" "hi" 3)] ∧
    targetedDelivery ["B", "C"]
      (step (run init [Event.investorJoin sockA (some "a") 1, Event.disconnect sockA]).1
        (Event.adminMessage sockB (some "a") "hi" 3)).2 = [] :=
  have h := admin_message_fan_out
    (run init [Event.investorJoin sockA (some "a") 1, Event.disconnect sockA]).1
    (reachable_run Reachable.init _) "a" [] (by decide) sockB "hi" 3
  ⟨reachable_run Reachable.init _, by decide, by decide,
   h.elim (fun r hr => hr.2.2.2.2.2.2.2.2 ["B", "C"] (by
     have hr1 := hr.1
     have : r.socketId = "A" := by
       have h2 : (run init [Event.investorJoin sockA (some "a") 1,
           Event.disconnect sockA]).1.activeInvestors.get? "a" =
           some { id := "a", socketId := "A", joinTime := 1, ip := "10.0.0.1",
                  userAgent := some "ua", status := Status.inactive } := by decide
       rw [h2] at hr1
       cases hr1
       rfl
     rw [this]
     decide))⟩

/-! ## C15: the connection reference after a disconnect -/

/-- C15 as stated fails: investor `"inv"` joins on connection `A`, then `A` disconnects; the
session record of `"inv"` is inactive and its `socketId` is still `"A"`. -/
theorem socketId_kept_after_disconnect :
    (run init [Event.investorJoin sockA (some "inv") 1,
        Event.disconnect sockA]).1.activeInvestors.get? "inv" =
      some { id := "inv", socketId := "A", joinTime := 1, ip := "10.0.0.1",
             userAgent := some "ua", status := Status.inactive } ∧
    ((run init [Event.investorJoin sockA (some "inv") 1,
        Event.disconnect sockA]).1.activeInvestors.get? "inv").map Investor.socketId =
      some sockA.id := by
  decide

/-- C15, amended. In every reachable state, when the connection `s` bound to investor `i`,
whose session record `r` references `s`, disconnects, the record of `i` afterwards is `r`
with status inactive and every other field as before: it still references the handle of
`s`. -/
theorem disconnect_keeps_connection_reference (σ : State) (hσ : Reachable σ) (s : Socket)
    (i : String) (r : Investor) (hb : σ.socketInvestor.get? s.id = some i)
    (hr : σ.activeInvestors.get? i = some r) (hs : r.socketId = s.id) :
    (step σ (Event.disconnect s)).1.activeInvestors.get? i =
      some { r with status := Status.inactive } ∧
    ((step σ (Event.disconnect s)).1.activeInvestors.get? i).map Investor.socketId =
      some s.id ∧
    ((step σ (Event.disconnect s)).1.activeInvestors.get? i).map Investor.status =
      some Status.inactive := by
  obtain ⟨hne, _, _⟩ := (inv_of_reachable hσ).bound s.id i hb
  have hd : (step σ (Event.disconnect s)).1 =
      { σ with activeInvestors :=
          σ.activeInvestors.modify i (fun inv => { inv with status := Status.inactive }) } := by
    simp [step, disconnect, hb, truthy_some hne]
  rw [hd]
  simp [JsMap.get?_modify_self, hr, hs]

/-- Witness of `disconnect_keeps_connection_reference`: investor `"inv"` joined on `A`, then
`A` disconnects. -/
theorem disconnect_keeps_connection_reference_witness :
    Reachable (run init [Event.investorJoin sockA (some "inv") 1]).1 ∧
    ((step (run init [Event.investorJoin sockA (some "inv") 1]).1
        (Event.disconnect sockA)).1.activeInvestors.get? "inv").map Investor.socketId =
      some sockA.id :=
  ⟨reachable_run Reachable.init _,
   (disconnect_keeps_connection_reference _ (reachable_run Reachable.init _) sockA "inv"
      { id := "inv", socketId := "A", joinTime := 1, ip := "10.0.0.1", userAgent := some "ua",
        status := Status.active } (by decide) (by decide) (by decide)).2.1⟩

/-! ## C16: disconnect of an unidentified connection -/

theorem socketInvestor_step_of_not_joinsOn (σ : State) (e : Event) (sid : String)
    (he : e.joinsOn sid = false) :
    (step σ e).1.socketInvestor.get? sid = σ.socketInvestor.get? sid := by
  cases e with
  | investorJoin s d now =>
    have hne : s.id ≠ sid := by simpa [Event.joinsOn] using he
    simp only [step, investorJoin]
    exact JsMap.get?_set_ne _ _ hne
  | investorMessage s m now =>
    simp only [step, investorMessage]
    split
    · split <;> rfl
    · rfl
  | adminMessage s d m now =>
    simp only [step, adminMessage]
    split
    · split <;> rfl
    · rfl
  | fileUploadStart s d => rfl
  | disconnect s =>
    simp only [step, disconnect]
    split <;> rfl
  | upload req now =>
    simp only [step, upload]
    split <;> rfl

theorem socketInvestor_run_of_neverIdentified (σ : State) (es : List Event) (sid : String)
    (h : neverIdentified sid es = true) :
    (run σ es).1.socketInvestor.get? sid = σ.socketInvestor.get? sid := by
  induction es generalizing σ with
  | nil => rfl
  | cons e es ih =>
    simp only [neverIdentified, List.all_cons, Bool.and_eq_true, Bool.not_eq_true'] at h
    simp only [run]
    rw [ih _ (by simpa [neverIdentified] using h.2), socketInvestor_step_of_not_joinsOn σ e sid h.1]

/-- C16 (disconnect of an unidentified connection). In every state in which connection `s`
has no bound investorId, a disconnect of `s` leaves the whole state (session registry, every
conversation, upload ledger, bindings) unchanged and emits no event, `investor-left`
included. This is the case after every sequence of events from start-up in which no
`investor-join` was sent on `s`. -/
theorem disconnect_unidentified_noop (σ : State) (s : Socket) :
    (σ.socketInvestor.get? s.id = none → step σ (Event.disconnect s) = (σ, [])) ∧
    (∀ es : List Event, neverIdentified s.id es = true →
      step (run init es).1 (Event.disconnect s) = ((run init es).1, [])) := by
  have key : ∀ τ : State, τ.socketInvestor.get? s.id = none →
      step τ (Event.disconnect s) = (τ, []) := by
    intro τ h
    simp [step, disconnect, h, truthy]
  refine ⟨key σ, ?_⟩
  intro es hes
  apply key
  rw [socketInvestor_run_of_neverIdentified init es s.id hes]
  rfl

/-- Witness of `disconnect_unidentified_noop`: investor `"a"` is online on `A`; connection `B`
only sent an admin message and then disconnects. -/
theorem disconnect_unidentified_noop_witness :
    neverIdentified sockB.id [Event.investorJoin sockA (some "a") 1,
      Event.adminMessage sockB (some "a") "hi" 2] = true ∧
    step (run init [Event.investorJoin sockA (some "a") 1,
        Event.adminMessage sockB (some "a") "hi" 2]).1 (Event.disconnect sockB) =
      ((run init [Event.investorJoin sockA (some "a") 1,
        Event.adminMessage sockB (some "a") "hi" 2]).1, []) ∧
    step init (Event.disconnect sockB) = (init, []) :=
  ⟨by decide,
   (disconnect_unidentified_noop init sockB).2 _ (by decide),
   (disconnect_unidentified_noop init sockB).1 (by decide)⟩

/-! ## C17: `file-upload-start` -/

/-- C17 (`file-upload-start` is a pure relay). In every state and for every payload `d`, a
`file-upload-start` event from any connection returns the same state (session registry, every
conversation, upload ledger and the investorId bound to every connection are unchanged) and
emits exactly one event, the `file-upload-start` broadcast that carries `d`. -/
theorem file_upload_start_pure_relay (σ : State) (s : Socket) (d : String) :
    step σ (Event.fileUploadStart s d) = (σ, [Emit.fileUploadStart d]) ∧
    (step σ (Event.fileUploadStart s d)).1.activeInvestors = σ.activeInvestors ∧
    (step σ (Event.fileUploadStart s d)).1.chatMessages = σ.chatMessages ∧
    (step σ (Event.fileUploadStart s d)).1.uploadedFiles = σ.uploadedFiles ∧
    (step σ (Event.fileUploadStart s d)).1.socketInvestor = σ.socketInvestor ∧
    (step σ (Event.fileUploadStart s d)).2 = [Emit.fileUploadStart d] :=
  ⟨rfl, rfl, rfl, rfl, rfl, rfl⟩

/-! ## C18: the registry and the conversation store have the same keys -/

/-- C18 (same keys). In every state reachable from the start-up state, an investorId has a
conversation exactly when it has a session record; so whenever the guard of the
`admin-message` handler passes for `i`, the lookup of the session of `i` at the targeted emit
finds a record `r`, and the targeted event is addressed to `r.socketId`, never to
`undefined`. -/
theorem registry_and_conversations_same_keys (σ : State) (hσ : Reachable σ) :
    (∀ i, σ.chatMessages.has i = σ.activeInvestors.has i) ∧
    (∀ i, i ∈ σ.chatMessages.keys ↔ i ∈ σ.activeInvestors.keys) ∧
    (∀ (s : Socket) (d : Option String) (c : String) (now : Nat) (i : String),
      truthy d = some i → σ.chatMessages.has i = true →
      ∃ r, σ.activeInvestors.get? i = some r ∧
        (step σ (Event.adminMessage s d c now)).2 =
          [Emit.adminMessageTo (some r.socketId) (adminMessageData i c now),
           Emit.newMessage (adminMessageData i c now)]) := by
  refine ⟨fun i => has_chat_eq_has_session hσ i, ?_, ?_⟩
  · intro i
    rw [← JsMap.has_iff_mem_keys, ← JsMap.has_iff_mem_keys, has_chat_eq_has_session hσ i]
  · intro s d c now i hd hc
    obtain ⟨r, hr⟩ := session_of_has_chat hσ i hc
    obtain ⟨rfl, hi⟩ := truthy_eq_some hd
    refine ⟨r, hr, ?_⟩
    simp only [step]
    rw [adminMessage_of_has σ i hi hc c now, hr]
    rfl

/-- Witness of `registry_and_conversations_same_keys`: after a join without an id, a join
with an id, a message and a disconnect, both maps have the keys `inv_1` and `a`. -/
theorem registry_and_conversations_same_keys_witness :
    Reachable (run init [Event.investorJoin sockA none 1, Event.investorJoin sockB (some "a") 2,
      Event.investorMessage sockA "hi" 3, Event.disconnect sockA]).1 ∧
    (run init [Event.investorJoin sockA none 1, Event.investorJoin sockB (some "a") 2,
      Event.investorMessage sockA "hi" 3, Event.disconnect sockA]).1.chatMessages.keys =
      ["inv_1", "a"] ∧
    (run init [Event.investorJoin sockA none 1, Event.investorJoin sockB (some "a") 2,
      Event.investorMessage sockA "hi" 3, Event.disconnect sockA]).1.chatMessages.has "a" =
    (run init [Event.investorJoin sockA none 1, Event.investorJoin sockB (some "a") 2,
      Event.investorMessage sockA "hi" 3, Event.disconnect sockA]).1.activeInvestors.has "a" :=
  ⟨reachable_run Reachable.init _, by decide,
   (registry_and_conversations_same_keys _ (reachable_run Reachable.init _)).1 "a"⟩

/-! ## C19: messages and records are filed under their own key -/

theorem message_investorId_step (σ : State) (e : Event)
    (h : ∀ i l, σ.chatMessages.get? i = some l → ∀ m ∈ l, m.investorId = i)
    (i : String) (l : List Message) (hl : (step σ e).1.chatMessages.get? i = some l)
    (m : Message) (hm : m ∈ l) : m.investorId = i := by
  have push : ∀ (k : String) (x : Message), x.investorId = k →
      (σ.chatMessages.modify k (fun l => l ++ [x])).get? i = some l → m.investorId = i := by
    intro k x hx hg
    by_cases hk : k = i
    · subst hk
      rw [JsMap.get?_modify_self] at hg
      cases h0 : σ.chatMessages.get? k with
      | none => simp [h0] at hg
      | some l0 =>
        simp only [h0, Option.map_some', Option.some.injEq] at hg
        subst hg
        rcases List.mem_append.mp hm with h1 | h1
        · exact h k l0 h0 m h1
        · rw [List.mem_singleton.mp h1]; exact hx
    · rw [JsMap.get?_modify_ne _ _ hk] at hg
      exact h i l hg m hm
  cases e with
  | investorJoin s d now =>
    simp only [step, investorJoin] at hl
    split at hl
    · exact h i l hl m hm
    · by_cases hk : resolveId d now = i
      · subst hk
        rw [JsMap.get?_set_self] at hl
        cases hl
        simp at hm
      · rw [JsMap.get?_set_ne _ _ hk] at hl
        exact h i l hl m hm
  | investorMessage s c now =>
    simp only [step, investorMessage] at hl
    split at hl
    · rename_i k hk
      split at hl
      · exact push k (investorMessageData k c now) rfl hl
      · exact h i l hl m hm
    · exact h i l hl m hm
  | adminMessage s d c now =>
    simp only [step, adminMessage] at hl
    split at hl
    · rename_i k hk
      split at hl
      · exact push k (adminMessageData k c now) rfl hl
      · exact h i l hl m hm
    · exact h i l hl m hm
  | fileUploadStart s d => exact h i l hl m hm
  | disconnect s =>
    simp only [step, disconnect] at hl
    split at hl <;> exact h i l hl m hm
  | upload req now =>
    simp only [step, upload] at hl
    split at hl <;> exact h i l hl m hm

theorem message_investorId_of_reachable {σ : State} (hσ : Reachable σ) (i : String)
    (l : List Message) (hl : σ.chatMessages.get? i = some l) (m : Message) (hm : m ∈ l) :
    m.investorId = i := by
  induction hσ generalizing i l m with
  | init => simp [init, JsMap.get?] at hl
  | step σ e _ ih => exact message_investorId_step σ e ih i l hl m hm

/-- C19 (filed under their own key). In every reachable state, every message of the
conversation stored under the key `i` has investorId `i` and has type investor or admin, and
every session record stored under the key `i` has id `i`. -/
theorem messages_filed_under_own_conversation (σ : State) (hσ : Reachable σ) :
    (∀ (i : String) (l : List Message), (i, l) ∈ σ.chatMessages → ∀ m ∈ l,
      m.investorId = i ∧ (m.type = MsgType.investor ∨ m.type = MsgType.admin)) ∧
    (∀ (i : String) (r : Investor), (i, r) ∈ σ.activeInvestors → r.id = i) := by
  have hinv := inv_of_reachable hσ
  constructor
  · intro i l hil m hm
    refine ⟨message_investorId_of_reachable hσ i l
      (JsMap.get?_of_mem _ hinv.chatsNodup hil) m hm, ?_⟩
    cases m.type
    · exact Or.inl rfl
    · exact Or.inr rfl
  · intro i r hir
    have h := hinv.investorsId
    simp only [JsMap.values, JsMap.keys, List.map_map] at h
    exact (List.map_inj_left.mp h) (i, r) hir

/-- Witness of `messages_filed_under_own_conversation`: the admin message stored for investor
`"a"` carries the investorId `"a"`. -/
theorem messages_filed_under_own_conversation_witness :
    Reachable (run init [Event.investorJoin sockA (some "a") 1,
      Event.adminMessage sockB (some "a") "hi" 2]).1 ∧
    (adminMessageData "a" "hi" 2).investorId = "a" ∧
    ((adminMessageData "a" "hi" 2).type = MsgType.investor ∨
      (adminMessageData "a" "hi" 2).type = MsgType.admin) :=
  ⟨reachable_run Reachable.init _,
   (messages_filed_under_own_conversation
      (run init [Event.investorJoin sockA (some "a") 1,
        Event.adminMessage sockB (some "a") "hi" 2]).1 (reachable_run Reachable.init _)).1 "a"
      [adminMessageData "a" "hi" 2] (by decide) (adminMessageData "a" "hi" 2) (by decide)⟩

end Server
